import Mathlib

/-!
Template helper functions of the uxr-ds design system.

A shallow embedding of the helper functions of package `ds`
(`helpers.go`, `funcmap.go`) together with theorems about them.

Conventions of the embedding:

* Go `int` / `int64` values are Lean `Int`s, and `int` has 64 bits.  The
  arithmetic of `NewPagination` and `seq` wraps modulo 2^64 (`wrapInt`), so a
  counter that passes `2^63 - 1` goes on at `-2^63`.  Elsewhere the range is a
  hypothesis of the theorem where it matters.
* A Go `string` is its sequence of bytes, `List UInt8`; `len(s)` is the length of
  that list and `s[lo:hi]` is byte slicing.
* A call either returns a value, or aborts (a Go run-time panic or a fatal
  error of the runtime), or runs out of loop fuel; the three are kept apart in
  `Outcome`.  Every loop is given the fuel its bounds call for; where a theorem
  says that a call returns, it shows that this fuel suffices.
* `make([]int, 0, cap)` aborts on a negative capacity and on a capacity above
  what the machine grants (`Machine.maxCap`, never more than 2^45 elements:
  beyond that the runtime panics with "cap out of range").
* A value of type `any` is a `GoValue`: its dynamic type as far as type switches
  and `reflect.Kind` tell types apart, and its content.
* A Go map is a `GoMap`: nil, or an association list without duplicate keys whose
  order is the iteration order of `range`.  The theorems hold for every order.
* A `time.Time` is given by its civil date, clock reading and zone offset.
  `Time.Format` is modelled for the layout elements funcmap.go uses;
  `time.Parse` and `time.Unix` come from a `TimeEnv`.  `TimeAgo` takes the text
  for a normalised instant as a parameter; `elapsedText` is that text as a
  function of the elapsed time `time.Since(t)`.
* The float64 values that `TimeAgo` computes are non-negative and far inside the
  normal range; they are modelled exactly, as `mant * 2^exp`, with the results
  of `+` and `/` rounded to nearest, ties to even, at 53 bits.
-/

namespace Ds

/-! ## Outcomes of a call -/

/-- Result of running a Go function: a value, an abort (a run-time panic or a
fatal error of the runtime), or an exhausted loop budget. -/
inductive Outcome (α : Type) where
  | ok (v : α)
  | panic
  | timeout
  deriving DecidableEq, Repr

namespace Outcome

/-- Sequencing: the first abort wins. -/
def bind {α β : Type} (x : Outcome α) (f : α → Outcome β) : Outcome β :=
  match x with
  | ok v => f v
  | panic => panic
  | timeout => timeout

instance : Monad Outcome where
  pure := Outcome.ok
  bind := Outcome.bind

/-- The call came back with a value. -/
def Returns {α : Type} (x : Outcome α) : Prop := ∃ v, x = ok v

end Outcome

/-! ## helpers.go: pagination -/

/-- Pagination represents pagination component data. -/
structure Pagination where
  CurrentPage : Int
  TotalPages : Int
  PageNumbers : List Int
  deriving DecidableEq, Repr

/-- The value of an `int` expression on a 64-bit platform: the mathematical
result wrapped into `-2^63 .. 2^63 - 1` (two's complement). -/
def wrapInt (x : Int) : Int :=
  (x + 9223372036854775808) % 18446744073709551616 - 9223372036854775808

/-- The machine the program runs on, as far as allocating a slice of `int`s
goes: `maxCap` is the largest capacity for which `make([]int, 0, cap)`
succeeds.  It is at least one page of memory (512 ints) and at most 2^45: the
runtime panics with "cap out of range" when `cap * 8` bytes exceed its limit
`maxAlloc` of 2^48 bytes, and below that the allocation fails where the
machine has not the memory. -/
structure Machine where
  maxCap : Nat
  grantsPage : 512 ≤ maxCap
  runtimeLimit : maxCap ≤ 35184372088832

/-- The Go builtin `make([]int, 0, cap)`.  It aborts when `cap` is negative (Go
specification, "Making slices, maps and channels") or above what the machine
grants; otherwise the result is an empty slice. -/
def makeIntSlice (m : Machine) (cap : Int) : Outcome (List Int) :=
  if cap < 0 ∨ (m.maxCap : Int) < cap then Outcome.panic else Outcome.ok []

/-- The loop `for ; i <= hi; i++ { s = append(s, i) }`, one iteration per unit
of fuel; `i++` wraps at `2^63 - 1`. -/
def appendUpTo (hi : Int) : Nat → Int → List Int → Outcome (List Int)
  | 0, i, s => if i ≤ hi then Outcome.timeout else Outcome.ok s
  | fuel + 1, i, s =>
    if i ≤ hi then appendUpTo hi fuel (wrapInt (i + 1)) (s ++ [i]) else Outcome.ok s

/-- The loop `for i := lo; i <= hi; i++ { s = append(s, i) }`, run with the
number of iterations the bounds allow. -/
def appendRange (lo hi : Int) (s : List Int) : Outcome (List Int) :=
  appendUpTo hi (hi + 1 - lo).toNat lo s

/-- NewPagination creates pagination data with smart page number ranges. -/
def NewPagination (m : Machine) (currentPage totalPages : Int) : Outcome Pagination := do
  let pageNumbers ← makeIntSlice m totalPages
  let pageNumbers ←
    if totalPages ≤ 7 then
      appendRange 1 totalPages pageNumbers
    else if currentPage ≤ 4 then do
      let pageNumbers ← appendRange 1 5 pageNumbers
      pure (pageNumbers ++ [totalPages])
    else if currentPage ≥ wrapInt (totalPages - 3) then
      appendRange (wrapInt (totalPages - 4)) totalPages (pageNumbers ++ [1])
    else do
      let pageNumbers ←
        appendRange (wrapInt (currentPage - 1)) (wrapInt (currentPage + 1)) (pageNumbers ++ [1])
      pure (pageNumbers ++ [totalPages])
  pure { CurrentPage := currentPage, TotalPages := totalPages, PageNumbers := pageNumbers }

/-- A machine for the worked examples: it grants slices of up to 2^20 ints. -/
def sampleMachine : Machine :=
  { maxCap := 1048576, grantsPage := by decide, runtimeLimit := by decide }

/-! ## Go strings -/

/-- A Go string: an immutable sequence of bytes. -/
abbrev GoString := List UInt8

/-- The bytes of a string literal (Go source text is UTF-8). -/
def lit (s : String) : GoString := s.toUTF8.data.toList

/-- The slice expression `s[lo:hi]` on a string: a run-time panic unless
`0 <= lo <= hi <= len(s)`, otherwise the bytes at positions `lo .. hi-1`. -/
def sliceStr (s : GoString) (lo hi : Int) : Outcome GoString :=
  if 0 ≤ lo ∧ lo ≤ hi ∧ hi ≤ (s.length : Int) then
    Outcome.ok ((s.drop lo.toNat).take (hi - lo).toNat)
  else Outcome.panic

/-! ## helpers.go: Truncate -/

/-- Truncate truncates a string to maxLen characters with ellipsis. -/
def Truncate (s : GoString) (maxLen : Int) : Outcome GoString :=
  if (s.length : Int) ≤ maxLen then
    pure s
  else if maxLen ≤ 3 then
    sliceStr s 0 maxLen
  else do
    let t ← sliceStr s 0 (maxLen - 3)
    pure (t ++ lit "...")

/-! ## funcmap.go: FormatNumber -/

/-- The byte `','`. -/
def comma : UInt8 := 44

/-- The byte `'-'`. -/
def minus : UInt8 := 45

/-- The ASCII byte of the decimal digit `d`. -/
def digitByte (d : Nat) : UInt8 := (48 + d).toUInt8

/-- Decimal digits of `n`, most significant first, pushed in front of `acc`;
one digit per unit of fuel. -/
def decimalDigits : Nat → Nat → GoString → GoString
  | 0, _, acc => acc
  | fuel + 1, n, acc =>
    if n / 10 = 0 then digitByte (n % 10) :: acc
    else decimalDigits fuel (n / 10) (digitByte (n % 10) :: acc)

/-- Decimal text of a natural number (`"0"` for zero, no leading zeros). -/
def formatNat (n : Nat) : GoString := decimalDigits (n + 1) n []

/-- The Go standard library call `strconv.FormatInt(i, 10)`: the decimal text
of `i`, with a leading `'-'` when `i` is negative. -/
def strconv.FormatInt (i : Int) : GoString :=
  if i < 0 then minus :: formatNat i.natAbs else formatNat i.toNat

/-- The loop of `insertCommas`,
`for ; i < len(s); i += 3 { if b.Len() > 0 { b.WriteByte(',') }; b.WriteString(s[i : i+3]) }`,
one iteration per unit of fuel; `b` is the content of the builder. -/
def insertCommasLoop (s : GoString) : Nat → Int → GoString → Outcome GoString
  | 0, i, b => if i < (s.length : Int) then Outcome.timeout else Outcome.ok b
  | fuel + 1, i, b =>
    if i < (s.length : Int) then do
      let b := if b.length > 0 then b ++ [comma] else b
      let chunk ← sliceStr s i (i + 3)
      insertCommasLoop s fuel (i + 3) (b ++ chunk)
    else Outcome.ok b

/-- The function `insertCommas` of funcmap.go. -/
def insertCommas (s : GoString) : Outcome GoString :=
  if s.length ≤ 3 then
    pure s
  else do
    let start : Int := (s.length : Int) % 3
    let b ← if start > 0 then sliceStr s 0 start else pure []
    insertCommasLoop s s.length start b

/-- FormatNumber formats an int64 with comma separators. -/
def FormatNumber (n : Int) : Outcome GoString :=
  let s := strconv.FormatInt n
  if n < 0 then do
    let digits ← sliceStr s 1 s.length
    let grouped ← insertCommas digits
    pure (lit "-" ++ grouped)
  else insertCommas s

/-! ## funcmap.go: the template function `seq` -/

/-- The template function `"seq"`:
`s := make([]int, 0, end-start+1); for i := start; i <= end; i++ { s = append(s, i) }`.
The capacity `end-start+1` is computed in 64-bit `int` arithmetic. -/
def FuncMap.seq (m : Machine) (start end_ : Int) : Outcome (List Int) := do
  let s ← makeIntSlice m (wrapInt (wrapInt (end_ - start) + 1))
  appendRange start end_ s

/-! ## Dynamic values (`any`) -/

/-- The type `time.Month`. -/
inductive Month where
  | January | February | March | April | May | June
  | July | August | September | October | November | December
  deriving DecidableEq, Repr

/-- A `time.Time` value, represented by what its methods `Date()`, `Clock()`,
`Nanosecond()` and `Zone()` report: the civil date and clock reading in the
value's own location, and that location's offset in seconds east of UTC. -/
structure Time where
  Year : Int
  Month : Month
  Day : Nat
  Hour : Nat
  Minute : Nat
  Second : Nat
  Nanosecond : Nat
  Offset : Int
  deriving DecidableEq, Repr

/-- The signed integer kinds of package `reflect`. -/
inductive IntKind where
  | int | int8 | int16 | int32 | int64
  deriving DecidableEq, Repr

/-- The unsigned integer kinds that `isZeroValue` lists (`Uintptr` is not among
them). -/
inductive UintKind where
  | uint | uint8 | uint16 | uint32 | uint64
  deriving DecidableEq, Repr

/-- The floating-point kinds. -/
inductive FloatKind where
  | float32 | float64
  deriving DecidableEq, Repr

/-- The complex kinds. -/
inductive ComplexKind where
  | complex64 | complex128
  deriving DecidableEq, Repr

/-- A value of the interface type `any`, as far as the helpers can tell values
apart.  The flag `defined` of the basic kinds says that the dynamic type is a
defined type over the predeclared one (`template.HTML` over `string`,
`time.Duration` over `int64`): `reflect` reports the same kind for both, a type
assertion or type switch on the predeclared type only matches `defined = false`.
A float carries the bit pattern of `reflect.Value.Float()`, a float64; a
complex number the bit patterns of its real and imaginary part.
`other` stands for the values of every remaining kind (pointers, structs other
than `time.Time`, functions, channels, arrays). -/
inductive GoValue where
  | nil
  | str (defined : Bool) (s : GoString)
  | bool (defined : Bool) (b : Bool)
  | int (defined : Bool) (k : IntKind) (i : Int)
  | uint (defined : Bool) (k : UintKind) (u : Nat)
  | float (defined : Bool) (k : FloatKind) (bits : Nat)
  | uintptr (defined : Bool) (u : Nat)
  | complex (defined : Bool) (k : ComplexKind) (re im : Nat)
  | slice (elems : List GoValue)
  | map (entries : List (GoValue × GoValue))
  | time (t : Time)
  | other (id : Nat)

/-- The comparison `f == 0` on a float64 given by its bit pattern: true for
`+0` and `-0` only. -/
def floatIsZero (bits : Nat) : Bool := bits % 2 ^ 63 == 0

/-! ## funcmap.go: zero values, `default`, `coalesce` -/

/-- isZeroValue returns true if v is nil or a zero value for its type. -/
def isZeroValue (v : GoValue) : Bool :=
  match v with
  | GoValue.nil => true
  | GoValue.str _ s => s.length == 0
  | GoValue.bool _ b => !b
  | GoValue.int _ _ i => i == 0
  | GoValue.uint _ _ u => u == 0
  | GoValue.float _ _ bits => floatIsZero bits
  | GoValue.slice elems => elems.length == 0
  | GoValue.map entries => entries.length == 0
  | GoValue.uintptr _ _ => false
  | GoValue.complex _ _ _ _ => false
  | GoValue.time _ => false
  | GoValue.other _ => false

/-- The template function `"default"`:
`func(defaultVal, val any) any { if isZeroValue(val) { return defaultVal }; return val }`. -/
def FuncMap.default (defaultVal val : GoValue) : GoValue :=
  if isZeroValue val then defaultVal else val

/-- The template function `"coalesce"`:
`for _, v := range vals { if !isZeroValue(v) { return v } }; return nil`. -/
def FuncMap.coalesce : List GoValue → GoValue
  | [] => GoValue.nil
  | v :: rest => if !isZeroValue v then v else FuncMap.coalesce rest

/-! ## Go maps with string keys -/

/-- The entries of a non-nil Go map with string keys: an association list
without duplicate keys.  The order of the list is the order in which `range`
visits the entries; the runtime may pick any order, and so may the list. -/
abbrev Entries (V : Type) := AList (fun _ : GoString => V)

/-- A Go map value with string keys: the nil map, or a map made by `make`. -/
inductive GoMap (V : Type) where
  | nil
  | made (entries : Entries V)

/-- The index expression `v, ok := m[k]`; a nil map has no entries. -/
def GoMap.lookup {V : Type} (m : GoMap V) (k : GoString) : Option V :=
  match m with
  | GoMap.nil => none
  | GoMap.made entries => entries.lookup k

/-- The entries that `for k, v := range m` visits, in order. -/
def GoMap.rangeEntries {V : Type} (m : GoMap V) : List (Sigma (fun _ : GoString => V)) :=
  match m with
  | GoMap.nil => []
  | GoMap.made entries => entries.entries

/-- The loop `for k, v := range m { merged[k] = v }`. -/
def assignAll {V : Type} (m : GoMap V) (merged : Entries V) : Entries V :=
  m.rangeEntries.foldl (fun acc e => acc.insert e.1 e.2) merged

/-! ## funcmap.go: MergeFuncMap -/

/-- MergeFuncMap creates a new FuncMap from base, overriding/adding entries from
extra.  `V` is the type of the registered functions. -/
def MergeFuncMap {V : Type} (base extra : GoMap V) : GoMap V :=
  let merged : Entries V := ∅
  let merged := assignAll base merged
  let merged := assignAll extra merged
  GoMap.made merged

/-! ## funcmap.go: the template function `dict` -/

/-- The index expression `values[i]` on a slice: a run-time panic when `i` is
out of range. -/
def indexAny (values : List GoValue) (i : Nat) : Outcome GoValue :=
  match values.get? i with
  | some v => Outcome.ok v
  | none => Outcome.panic

/-- The loop of `dict`,
`for ; i < len(values); i += 2 { key, ok := values[i].(string); if !ok { continue }; d[key] = values[i+1] }`,
one iteration per unit of fuel. -/
def dictLoop (values : List GoValue) : Nat → Nat → Entries GoValue → Outcome (Entries GoValue)
  | 0, i, d => if i < values.length then Outcome.timeout else Outcome.ok d
  | fuel + 1, i, d =>
    if i < values.length then do
      let k ← indexAny values i
      match k with
      | GoValue.str false key => do
        let v ← indexAny values (i + 1)
        dictLoop values fuel (i + 2) (d.insert key v)
      | _ => dictLoop values fuel (i + 2) d
    else Outcome.ok d

/-- The template function `"dict"`. -/
def FuncMap.dict (values : List GoValue) : Outcome (GoMap GoValue) :=
  if values.length % 2 ≠ 0 then
    pure GoMap.nil
  else do
    let d ← dictLoop values values.length 0 ∅
    pure (GoMap.made d)

/-! ## Package `time`: the part that is modelled -/

/-- The method `Month.String`: the English name of the month. -/
def Month.String : Month → GoString
  | Month.January => lit "January"
  | Month.February => lit "February"
  | Month.March => lit "March"
  | Month.April => lit "April"
  | Month.May => lit "May"
  | Month.June => lit "June"
  | Month.July => lit "July"
  | Month.August => lit "August"
  | Month.September => lit "September"
  | Month.October => lit "October"
  | Month.November => lit "November"
  | Month.December => lit "December"

/-- The number of the month, January = 1. -/
def Month.number : Month → Nat
  | Month.January => 1
  | Month.February => 2
  | Month.March => 3
  | Month.April => 4
  | Month.May => 5
  | Month.June => 6
  | Month.July => 7
  | Month.August => 8
  | Month.September => 9
  | Month.October => 10
  | Month.November => 11
  | Month.December => 12

/-- Days from January 1 of year 1 to the given date of the proleptic Gregorian
calendar. -/
def daysSinceYearOne (year : Int) (month : Month) (day : Nat) : Int :=
  let y : Int := if month.number ≤ 2 then year - 1 else year
  let m : Int := if month.number ≤ 2 then (month.number : Int) + 9 else (month.number : Int) - 3
  365 * y + y / 4 - y / 100 + y / 400 + (153 * m + 2) / 5 + (day : Int) - 1 - 306

/-- Seconds from January 1, year 1, 00:00:00 UTC to the instant of `t`. -/
def Time.absSeconds (t : Time) : Int :=
  daysSinceYearOne t.Year t.Month t.Day * 86400
    + (t.Hour : Int) * 3600 + (t.Minute : Int) * 60 + (t.Second : Int) - t.Offset

/-- The method `Time.IsZero`: whether `t` is the zero time instant,
January 1, year 1, 00:00:00 UTC. -/
def Time.IsZero (t : Time) : Bool :=
  t.absSeconds == 0 && t.Nanosecond == 0

/-- The zero value `time.Time{}`. -/
def Time.zero : Time :=
  { Year := 1, Month := Month.January, Day := 1, Hour := 0, Minute := 0, Second := 0,
    Nanosecond := 0, Offset := 0 }

/-- The helper `appendInt` of package `time`: the decimal text of `x`, with a
leading `'-'` when negative, zero-padded to at least `width` digits. -/
def appendInt (x : Int) (width : Nat) : GoString :=
  (if x < 0 then [minus] else []) ++
    List.replicate (width - (formatNat x.natAbs).length) (digitByte 0) ++ formatNat x.natAbs

/-- The method `Time.Format`, for the layout elements that occur in
funcmap.go: `Jan`, `2`, `02`, `2006`, `3`, `15`, `04` and `PM`; every other
byte of the layout is copied.  The layout is read from left to right as
`nextStdChunk` does: `2006` is tried before `2`. -/
def Time.Format (t : Time) : GoString → GoString
  -- "Jan": stdMonth
  | 74 :: 97 :: 110 :: rest => (t.Month.String.take 3) ++ Time.Format t rest
  -- "02": stdZeroDay
  | 48 :: 50 :: rest => appendInt t.Day 2 ++ Time.Format t rest
  -- "04": stdZeroMinute
  | 48 :: 52 :: rest => appendInt t.Minute 2 ++ Time.Format t rest
  -- "15": stdHour
  | 49 :: 53 :: rest => appendInt t.Hour 2 ++ Time.Format t rest
  -- "2006": stdLongYear
  | 50 :: 48 :: 48 :: 54 :: rest => appendInt t.Year 4 ++ Time.Format t rest
  -- "2": stdDay
  | 50 :: rest => appendInt t.Day 0 ++ Time.Format t rest
  -- "3": stdHour12
  | 51 :: rest =>
    appendInt (if t.Hour % 12 = 0 then 12 else (t.Hour % 12 : Nat)) 0 ++ Time.Format t rest
  -- "PM": stdPM
  | 80 :: 77 :: rest => (if t.Hour ≥ 12 then lit "PM" else lit "AM") ++ Time.Format t rest
  | c :: rest => c :: Time.Format t rest
  | [] => []

/-- The constant `time.RFC3339`. -/
def RFC3339 : GoString := lit "2006-01-02T15:04:05Z07:00"

/-- What funcmap.go takes from package `time` and from the process without the
embedding defining it: `time.Parse(layout, value)` (`none` when it returns an
error) and `time.Unix(sec, 0)`, whose result is in the local time zone. -/
structure TimeEnv where
  Parse : GoString → GoString → Option Time
  Unix : Int → Time

/-! ## funcmap.go: time formatting -/

/-- The loop of `toTime` over the layouts: the first layout under which the
string parses decides. -/
def parseFirst (env : TimeEnv) (s : GoString) : List GoString → Option Time
  | [] => none
  | layout :: rest =>
    match env.Parse layout s with
    | some parsed => some parsed
    | none => parseFirst env s rest

/-- toTime coerces any to time.Time. Accepts time.Time, RFC3339/date string, or
Unix int64.  `none` stands for the result `(time.Time{}, false)`. -/
def toTime (env : TimeEnv) (v : GoValue) : Option Time :=
  match v with
  | GoValue.time t => if t.IsZero then none else some t
  | GoValue.str false s =>
    if s = [] then none else parseFirst env s [RFC3339, lit "2006-01-02"]
  | GoValue.int false IntKind.int64 i => if i = 0 then none else some (env.Unix i)
  | _ => none

/-- formatTimeValue formats any time-like value with the given layout. -/
def formatTimeValue (env : TimeEnv) (v : GoValue) (layout : GoString) : GoString :=
  match toTime env v with
  | none =>
    match v with
    | GoValue.str false s => if s ≠ [] then s else []
    | _ => []
  | some t => t.Format layout

/-- FormatTime formats a time value for display (date + time). -/
def FormatTime (env : TimeEnv) (v : GoValue) : GoString :=
  formatTimeValue env v (lit "Jan 2, 2006 3:04 PM")

/-- FormatDate formats a time value as date only. -/
def FormatDate (env : TimeEnv) (v : GoValue) : GoString :=
  formatTimeValue env v (lit "Jan 02, 2006")

/-- FormatDateTime formats a time value as date and time (24h). -/
def FormatDateTime (env : TimeEnv) (v : GoValue) : GoString :=
  formatTimeValue env v (lit "Jan 02, 2006 15:04")

/-- TimeAgo returns a human-readable relative time string.  The part of the
function after the coercion reads the clock (`time.Since`); it enters as the
parameter `sinceText`, the text for an instant.  `TimeAgoAt` supplies that
text from `elapsedText`, the `switch` of the function. -/
def TimeAgo (env : TimeEnv) (sinceText : Time → GoString) (v : GoValue) : GoString :=
  match toTime env v with
  | none =>
    match v with
    | GoValue.str false s => if s ≠ [] then s else []
    | _ => []
  | some t => sinceText t

/-! ## float64, as far as TimeAgo uses it -/

/-- A finite non-negative float64 value: `mant * 2^exp`. -/
structure F64 where
  mant : Nat
  exp : Int
  deriving DecidableEq, Repr

/-- The number of binary digits of `n` minus one, for `n > 0`: the largest `e`
with `2^e <= n`; one halving per unit of fuel. -/
def log2Floor : Nat → Nat → Nat
  | 0, _ => 0
  | fuel + 1, n => if n < 2 then 0 else log2Floor fuel (n / 2) + 1

/-- The float64 nearest to the rational number `a / b` (with `b > 0`), ties to
even.  The quotient is scaled by a power of two so that it has exactly 53
binary digits, and then rounded to an integer.  Exponent range and subnormal
numbers play no part: the values of this program lie between 2^-42 and 2^22. -/
def F64.round (a b : Nat) : F64 :=
  if a = 0 then { mant := 0, exp := 0 } else
  let k : Int := 52 + (log2Floor b b : Int) - (log2Floor a a : Int)
  let n : Nat := if 0 ≤ k then a * 2 ^ k.toNat else a
  let d : Nat := if 0 ≤ k then b else b * 2 ^ (-k).toNat
  let n2 : Nat := if n / d < 2 ^ 52 then 2 * n else n
  let k2 : Int := if n / d < 2 ^ 52 then k + 1 else k
  let q : Nat := n2 / d
  let r : Nat := n2 % d
  let q2 : Nat := if d < 2 * r ∨ (2 * r = d ∧ q % 2 = 1) then q + 1 else q
  { mant := q2, exp := -k2 }

/-- The conversion `float64(n)` of a non-negative integer. -/
def F64.ofNat (n : Nat) : F64 := F64.round n 1

/-- The float64 sum `x + y`: the exact sum, rounded. -/
def F64.add (x y : F64) : F64 :=
  let e : Int := min x.exp y.exp
  let a : Nat := x.mant * 2 ^ (x.exp - e).toNat + y.mant * 2 ^ (y.exp - e).toNat
  if 0 ≤ e then F64.round (a * 2 ^ e.toNat) 1 else F64.round a (2 ^ (-e).toNat)

/-- The float64 quotient `x / y` for `y > 0`: the exact quotient, rounded. -/
def F64.div (x y : F64) : F64 :=
  let s : Int := x.exp - y.exp
  if 0 ≤ s then F64.round (x.mant * 2 ^ s.toNat) y.mant
  else F64.round x.mant (y.mant * 2 ^ (-s).toNat)

/-- The conversion `int(x)`: the fraction is discarded. -/
def F64.toInt (x : F64) : Int :=
  if 0 ≤ x.exp then (x.mant * 2 ^ x.exp.toNat : Nat) else (x.mant / 2 ^ (-x.exp).toNat : Nat)

/-! ## funcmap.go: the relative-time text of TimeAgo -/

/-- The constant `time.Minute`, in nanoseconds. -/
def Minute : Int := 60000000000

/-- The constant `time.Hour`, in nanoseconds. -/
def Hour : Int := 3600000000000

/-- The method `Duration.Minutes` for `d >= 0`:
`min := d / Minute; nsec := d % Minute; return float64(min) + float64(nsec)/(60*1e9)`. -/
def Duration.Minutes (d : Int) : F64 :=
  let min := d / Minute
  let nsec := d % Minute
  F64.add (F64.ofNat min.toNat) (F64.div (F64.ofNat nsec.toNat) (F64.ofNat 60000000000))

/-- The method `Duration.Hours` for `d >= 0`:
`hour := d / Hour; nsec := d % Hour; return float64(hour) + float64(nsec)/(60*60*1e9)`. -/
def Duration.Hours (d : Int) : F64 :=
  let hour := d / Hour
  let nsec := d % Hour
  F64.add (F64.ofNat hour.toNat) (F64.div (F64.ofNat nsec.toNat) (F64.ofNat 3600000000000))

/-- The `switch` of TimeAgo (funcmap.go, lines 212 to 251) as a function of
`d := time.Since(t)`, the elapsed time in nanoseconds.  `fmt.Sprintf("%d ...")`
prints the decimal text of the number. -/
def elapsedText (d : Int) : GoString :=
  if d < Minute then
    lit "just now"
  else if d < Hour then
    let m := (Duration.Minutes d).toInt
    if m = 1 then lit "1 minute ago" else strconv.FormatInt m ++ lit " minutes ago"
  else if d < 24 * Hour then
    let h := (Duration.Hours d).toInt
    if h = 1 then lit "1 hour ago" else strconv.FormatInt h ++ lit " hours ago"
  else if d < 7 * 24 * Hour then
    let days := (F64.div (Duration.Hours d) (F64.ofNat 24)).toInt
    if days = 1 then lit "yesterday" else strconv.FormatInt days ++ lit " days ago"
  else if d < 30 * 24 * Hour then
    let w := (F64.div (F64.div (Duration.Hours d) (F64.ofNat 24)) (F64.ofNat 7)).toInt
    if w = 1 then lit "1 week ago" else strconv.FormatInt w ++ lit " weeks ago"
  else if d < 365 * 24 * Hour then
    let mo := (F64.div (F64.div (Duration.Hours d) (F64.ofNat 24)) (F64.ofNat 30)).toInt
    if mo = 1 then lit "1 month ago" else strconv.FormatInt mo ++ lit " months ago"
  else
    let y := (F64.div (F64.div (Duration.Hours d) (F64.ofNat 24)) (F64.ofNat 365)).toInt
    if y = 1 then lit "1 year ago" else strconv.FormatInt y ++ lit " years ago"

/-- TimeAgo as the code runs it: `since t` is the value of `time.Since(t)`, in
nanoseconds, at the moment of the call. -/
def TimeAgoAt (env : TimeEnv) (since : Time → Int) (v : GoValue) : GoString :=
  TimeAgo env (fun t => elapsedText (since t)) v

/-! ## A sample environment for worked examples -/

/-- The civil date of the day that lies `days` days after January 1, 1970. -/
def civilFromUnixDays (days : Int) : Int × Nat × Nat :=
  let z := days + 719468
  let era := z / 146097
  let doe := z - era * 146097
  let yoe := (doe - doe / 1460 + doe / 36524 - doe / 146096) / 365
  let doy := doe - (365 * yoe + yoe / 4 - yoe / 100)
  let mp := (5 * doy + 2) / 153
  let d := doy - (153 * mp + 2) / 5 + 1
  let m := if mp < 10 then mp + 3 else mp - 9
  (if m ≤ 2 then yoe + era * 400 + 1 else yoe + era * 400, m.toNat, d.toNat)

/-- The month with the given number, January = 1. -/
def Month.ofNumber (n : Nat) : Month :=
  match n with
  | 1 => Month.January
  | 2 => Month.February
  | 3 => Month.March
  | 4 => Month.April
  | 5 => Month.May
  | 6 => Month.June
  | 7 => Month.July
  | 8 => Month.August
  | 9 => Month.September
  | 10 => Month.October
  | 11 => Month.November
  | _ => Month.December

/-- The call `time.Unix(sec, 0)` on a machine whose local time zone is UTC. -/
def unixUTC (sec : Int) : Time :=
  let date := civilFromUnixDays (sec / 86400)
  let rest := (sec % 86400).toNat
  { Year := date.1, Month := Month.ofNumber date.2.1, Day := date.2.2,
    Hour := rest / 3600, Minute := rest % 3600 / 60, Second := rest % 60,
    Nanosecond := 0, Offset := 0 }

/-- What `time.Parse` returns on the date strings of funcmap_test.go; on every
other input this sample reports an error. -/
def parseTestInputs (layout value : GoString) : Option Time :=
  if layout = lit "2006-01-02" ∧ value = lit "2024-06-15" then
    some { Year := 2024, Month := Month.June, Day := 15, Hour := 0, Minute := 0, Second := 0,
           Nanosecond := 0, Offset := 0 }
  else if layout = RFC3339 ∧ value = lit "2024-06-15T10:30:00Z" then
    some { Year := 2024, Month := Month.June, Day := 15, Hour := 10, Minute := 30, Second := 0,
           Nanosecond := 0, Offset := 0 }
  else none

/-- A sample environment: local time zone UTC, and `time.Parse` as far as the
tests of the repository use it. -/
def testEnv : TimeEnv := { Parse := parseTestInputs, Unix := unixUTC }

/-! ## Reference notions used in the statements -/

/-- The `n` consecutive integers starting at `lo`. -/
def consecutive (lo : Int) (n : Nat) : List Int :=
  (List.range n).map (fun (k : Nat) => lo + (k : Int))

/-- Cuts a string into consecutive groups of three bytes (a rest of fewer than
three bytes is dropped). -/
def chunks3 : GoString → List GoString
  | a :: b :: c :: rest => [a, b, c] :: chunks3 rest
  | _ => []

/-- Length of the leading group when a text of `len > 0` digits is grouped by
threes from the right. -/
def leadLen (len : Nat) : Nat := if len % 3 = 0 then 3 else len % 3

/-- Digit groups of `s`, counted in threes from the right: a leading group of
one to three bytes, then groups of exactly three. -/
def groupsOfThree (s : GoString) : List GoString :=
  s.take (leadLen s.length) :: chunks3 (s.drop (leadLen s.length))

/-- The decimal digits of `n`, most significant first, as ASCII bytes; `"0"`
for zero. -/
def decimalText (n : Nat) : GoString :=
  if n = 0 then [digitByte 0] else (Nat.digits 10 n).reverse.map digitByte

/-- A byte is one of `'0'`..`'9'`. -/
def IsDigitByte (b : UInt8) : Prop := 48 ≤ b.toNat ∧ b.toNat ≤ 57


/-- The values that the kinds listed in `isZeroValue` make a zero-value
equivalent: nil, the empty string, false, a zero of an integer, unsigned or
floating-point kind (for a float, all bits but the sign are zero), an empty
slice or an empty map.  A zero of kind `uintptr` or of a complex kind is not
among them. -/
def ZeroValueEquivalent : GoValue → Prop
  | GoValue.nil => True
  | GoValue.str _ s => s = []
  | GoValue.bool _ b => b = false
  | GoValue.int _ _ i => i = 0
  | GoValue.uint _ _ u => u = 0
  | GoValue.float _ _ bits => bits % 2 ^ 63 = 0
  | GoValue.slice elems => elems = []
  | GoValue.map entries => entries = []
  | GoValue.uintptr _ _ => False
  | GoValue.complex _ _ _ _ => False
  | GoValue.time _ => False
  | GoValue.other _ => False

/-- A zero-value equivalent in the words of the specification: nil, the empty
string, false, a numeric zero, an empty slice or an empty map.  The numeric
types of Go are the integer types (`uintptr` among them), the floating-point
types and the complex types. -/
def ZeroValueAsSpecified : GoValue → Prop
  | GoValue.nil => True
  | GoValue.str _ s => s = []
  | GoValue.bool _ b => b = false
  | GoValue.int _ _ i => i = 0
  | GoValue.uint _ _ u => u = 0
  | GoValue.float _ _ bits => bits % 2 ^ 63 = 0
  | GoValue.slice elems => elems = []
  | GoValue.map entries => entries = []
  | GoValue.uintptr _ u => u = 0
  | GoValue.complex _ _ re im => re % 2 ^ 63 = 0 ∧ im % 2 ^ 63 = 0
  | GoValue.time _ => False
  | GoValue.other _ => False

/-- The value `a` is the string `k`, of type `string`. -/
def isStringKey (k : GoString) (a : GoValue) : Bool :=
  match a with
  | GoValue.str false key => decide (key = k)
  | _ => false

/-- What the pairs of `l` (key at an even position, value right after it) bind
the string `k` to: the value of the last pair whose key is the string `k`. -/
def lastBinding (k : GoString) : List GoValue → Option GoValue
  | a :: b :: rest =>
    match lastBinding k rest with
    | some v => some v
    | none => if isStringKey k a then some b else none
  | _ => none

/-- The map `d` after the pairs of `l` have been stored into it, pair by pair;
a pair whose key is not of type `string` stores nothing. -/
def storePairs : List GoValue → Entries GoValue → Entries GoValue
  | a :: b :: rest, d =>
    match a with
    | GoValue.str false key => storePairs rest (d.insert key b)
    | _ => storePairs rest d
  | _, d => d

/-- The inputs that cannot be normalised to an instant, as the specification
lists them: the zero time, the empty string, a string that parses under
neither RFC3339 nor the date-only layout, int64 zero, nil, and a value of any
other type. -/
def NotNormalisable (env : TimeEnv) : GoValue → Prop
  | GoValue.time t => t.IsZero = true
  | GoValue.str false s =>
    s = [] ∨ (env.Parse RFC3339 s = none ∧ env.Parse (lit "2006-01-02") s = none)
  | GoValue.int false IntKind.int64 i => i = 0
  | _ => True

/-- The value itself when it is of type `string`, the empty string otherwise. -/
def stringOrEmpty : GoValue → GoString
  | GoValue.str false s => s
  | _ => []
/-! # Theorems -/

/-! ## Outcome plumbing -/

@[simp] theorem Outcome.ok_bind {α β : Type} (v : α) (f : α → Outcome β) :
    (Outcome.ok v >>= f) = f v := rfl

@[simp] theorem Outcome.panic_bind {α β : Type} (f : α → Outcome β) :
    (Outcome.panic >>= f) = Outcome.panic := rfl

@[simp] theorem Outcome.timeout_bind {α β : Type} (f : α → Outcome β) :
    (Outcome.timeout >>= f) = Outcome.timeout := rfl

@[simp] theorem Outcome.pure_eq_ok {α : Type} (v : α) :
    (pure v : Outcome α) = Outcome.ok v := rfl

theorem Outcome.bind_eq_ok {α β : Type} {x : Outcome α} {f : α → Outcome β} {w : β}
    (h : (x >>= f) = Outcome.ok w) : ∃ v, x = Outcome.ok v ∧ f v = Outcome.ok w := by
  cases x with
  | ok v => exact ⟨v, rfl, h⟩
  | panic => cases h
  | timeout => cases h

/-! ## Pagination: the counting loop -/

theorem consecutive_zero (lo : Int) : consecutive lo 0 = [] := rfl

theorem consecutive_succ (lo : Int) (n : Nat) :
    consecutive lo (n + 1) = lo :: consecutive (lo + 1) n := by
  unfold consecutive
  rw [List.range_succ_eq_map]
  simp only [List.map_cons, List.map_map, Nat.cast_zero, add_zero, List.cons.injEq, true_and]
  apply List.map_congr_left
  intro k _
  simp only [Function.comp_apply, Nat.cast_succ]
  ring

theorem wrapInt_of_range (x : Int) (h1 : -9223372036854775808 ≤ x)
    (h2 : x ≤ 9223372036854775807) : wrapInt x = x := by
  unfold wrapInt
  omega

theorem wrapInt_range (x : Int) :
    -9223372036854775808 ≤ wrapInt x ∧ wrapInt x ≤ 9223372036854775807 := by
  unfold wrapInt
  omega

theorem appendUpTo_eq (hi : Int) (hhi : hi ≤ 9223372036854775806) :
    ∀ (fuel : Nat) (i : Int) (s : List Int), -9223372036854775808 ≤ i →
      (hi + 1 - i).toNat ≤ fuel →
      appendUpTo hi fuel i s = Outcome.ok (s ++ consecutive i (hi + 1 - i).toNat) := by
  intro fuel
  induction fuel with
  | zero =>
    intro i s _ h
    have hlt : ¬ i ≤ hi := by omega
    have h0 : (hi + 1 - i).toNat = 0 := by omega
    simp [appendUpTo, hlt, h0, consecutive_zero]
  | succ fuel ih =>
    intro i s hi0 h
    by_cases hle : i ≤ hi
    · have hn : (hi + 1 - i).toNat = (hi + 1 - (i + 1)).toNat + 1 := by omega
      have hw : wrapInt (i + 1) = i + 1 := wrapInt_of_range _ (by omega) (by omega)
      have := ih (i + 1) (s ++ [i]) (by omega) (by omega)
      simp only [appendUpTo, hle, if_true, hw, this]
      rw [hn, consecutive_succ]
      simp
    · have h0 : (hi + 1 - i).toNat = 0 := by omega
      simp [appendUpTo, hle, h0, consecutive_zero]

theorem appendRange_eq (lo hi : Int) (s : List Int) (hlo : -9223372036854775808 ≤ lo)
    (hhi : hi ≤ 9223372036854775806) :
    appendRange lo hi s = Outcome.ok (s ++ consecutive lo (hi + 1 - lo).toNat) :=
  appendUpTo_eq hi hhi _ lo s hlo (le_refl _)

/-- With the bound `hi = 2^63 - 1` the loop condition `i <= hi` holds for every
`int`, so the loop never exits, whatever the fuel. -/
theorem appendUpTo_never_exits_at_max :
    ∀ (fuel : Nat) (i : Int) (s : List Int), i ≤ 9223372036854775807 →
      appendUpTo 9223372036854775807 fuel i s = Outcome.timeout := by
  intro fuel
  induction fuel with
  | zero =>
    intro i s h
    simp [appendUpTo, h]
  | succ fuel ih =>
    intro i s h
    simp only [appendUpTo, h, if_true]
    exact ih _ _ (wrapInt_range _).2

/-! ## Pagination: the three regimes -/

theorem NewPagination_small (m : Machine) (currentPage totalPages : Int)
    (h0 : 0 ≤ totalPages) (h7 : totalPages ≤ 7) :
    NewPagination m currentPage totalPages =
      Outcome.ok ⟨currentPage, totalPages, consecutive 1 totalPages.toNat⟩ := by
  have hpage := m.grantsPage
  have hcap : ¬ (totalPages < 0 ∨ (m.maxCap : Int) < totalPages) := by omega
  have hn : (totalPages + 1 - 1).toNat = totalPages.toNat := by simp
  have hloop := appendRange_eq 1 totalPages [] (by norm_num) (by omega)
  simp [NewPagination, makeIntSlice, hcap, h7, hloop, hn]

theorem NewPagination_large (m : Machine) (currentPage totalPages : Int)
    (h : 7 < totalPages) (hfit : totalPages ≤ (m.maxCap : Int)) :
    NewPagination m currentPage totalPages =
      Outcome.ok ⟨currentPage, totalPages,
        if currentPage ≤ 4 then [1, 2, 3, 4, 5, totalPages]
        else if currentPage ≥ totalPages - 3 then
          [1, totalPages - 4, totalPages - 3, totalPages - 2, totalPages - 1, totalPages]
        else [1, currentPage - 1, currentPage, currentPage + 1, totalPages]⟩ := by
  have hlimit := m.runtimeLimit
  have hcap : ¬ (totalPages < 0 ∨ (m.maxCap : Int) < totalPages) := by omega
  have h7 : ¬ totalPages ≤ 7 := by omega
  have w3 : wrapInt (totalPages - 3) = totalPages - 3 :=
    wrapInt_of_range _ (by omega) (by omega)
  have w4 : wrapInt (totalPages - 4) = totalPages - 4 :=
    wrapInt_of_range _ (by omega) (by omega)
  have e5 : (totalPages + 1 - (totalPages - 4)).toNat = 5 := by omega
  have e3 : (currentPage + 1 + 1 - (currentPage - 1)).toNat = 3 := by omega
  have c5 : ∀ lo : Int, consecutive lo 5 = [lo, lo + 1, lo + 2, lo + 3, lo + 4] := by
    intro lo; simp [consecutive, List.range_succ]
  have c3 : ∀ lo : Int, consecutive lo 3 = [lo, lo + 1, lo + 2] := by
    intro lo; simp [consecutive, List.range_succ]
  by_cases h4 : currentPage ≤ 4
  · have : appendRange 1 5 [] = Outcome.ok [1, 2, 3, 4, 5] := by decide
    simp [NewPagination, makeIntSlice, hcap, h7, h4, this]
  · by_cases hend : currentPage ≥ totalPages - 3
    · have hloop := appendRange_eq (totalPages - 4) totalPages ([] ++ [1])
        (by omega) (by omega)
      simp only [NewPagination, makeIntSlice, hcap, h7, h4, w3, w4, hend, if_true, if_false,
        Outcome.ok_bind, Outcome.pure_eq_ok, hloop, e5, c5]
      simp only [List.nil_append, List.singleton_append, Outcome.ok.injEq, Pagination.mk.injEq,
        true_and, List.cons.injEq, and_true]
      omega
    · have wm : wrapInt (currentPage - 1) = currentPage - 1 :=
        wrapInt_of_range _ (by omega) (by omega)
      have wp : wrapInt (currentPage + 1) = currentPage + 1 :=
        wrapInt_of_range _ (by omega) (by omega)
      have hloop := appendRange_eq (currentPage - 1) (currentPage + 1) ([] ++ [1])
        (by omega) (by omega)
      simp only [NewPagination, makeIntSlice, hcap, h7, h4, w3, wm, wp, hend, if_true, if_false,
        Outcome.ok_bind, Outcome.pure_eq_ok, hloop, e3, c3]
      simp only [List.nil_append, List.singleton_append, List.cons_append, Outcome.ok.injEq,
        Pagination.mk.injEq, true_and, List.cons.injEq, and_true]
      omega

/-- NewPagination aborts in `make` when totalPages is negative or above what
the machine grants. -/
theorem NewPagination_aborts (m : Machine) (currentPage totalPages : Int)
    (h : totalPages < 0 ∨ (m.maxCap : Int) < totalPages) :
    NewPagination m currentPage totalPages = Outcome.panic := by
  simp [NewPagination, makeIntSlice, h]

/-- On every machine NewPagination aborts for a totalPages above 2^45. -/
theorem NewPagination_aborts_above_runtime_limit (m : Machine) (currentPage totalPages : Int)
    (h : 35184372088832 < totalPages) :
    NewPagination m currentPage totalPages = Outcome.panic :=
  NewPagination_aborts m currentPage totalPages (Or.inr (by have := m.runtimeLimit; omega))

theorem NewPagination_ok_fits (m : Machine) (currentPage totalPages : Int) (p : Pagination)
    (h : NewPagination m currentPage totalPages = Outcome.ok p) :
    0 ≤ totalPages ∧ totalPages ≤ (m.maxCap : Int) := by
  by_contra hno
  have hab : totalPages < 0 ∨ (m.maxCap : Int) < totalPages := by omega
  rw [NewPagination_aborts m currentPage totalPages hab] at h
  cases h

/-- What holds of the value a call returns whenever the call fits the machine
holds of every returned value. -/
theorem NewPagination_of_returned (m : Machine) (currentPage totalPages : Int)
    (P : Pagination → Prop)
    (h : totalPages ≤ (m.maxCap : Int) →
      ∃ p, NewPagination m currentPage totalPages = Outcome.ok p ∧ P p) :
    ∀ p, NewPagination m currentPage totalPages = Outcome.ok p → P p := by
  intro p hp
  obtain ⟨q, hq, hP⟩ := h (NewPagination_ok_fits m currentPage totalPages p hp).2
  rw [hp] at hq
  cases hq
  exact hP

/-- The cases of `TestNewPagination`. -/
theorem NewPagination_examples :
    NewPagination sampleMachine 1 3 = Outcome.ok ⟨1, 3, [1, 2, 3]⟩ ∧
    NewPagination sampleMachine 1 7 = Outcome.ok ⟨1, 7, [1, 2, 3, 4, 5, 6, 7]⟩ ∧
    NewPagination sampleMachine 1 10 = Outcome.ok ⟨1, 10, [1, 2, 3, 4, 5, 10]⟩ ∧
    NewPagination sampleMachine 5 10 = Outcome.ok ⟨5, 10, [1, 4, 5, 6, 10]⟩ ∧
    NewPagination sampleMachine 9 10 = Outcome.ok ⟨9, 10, [1, 6, 7, 8, 9, 10]⟩ := by
  refine ⟨?_, ?_, ?_, ?_, ?_⟩ <;> decide

/-! ## Claims about NewPagination -/

/-- C1: for every currentPage and every totalPages with 0 <= totalPages <= 7,
NewPagination returns PageNumbers = [1, 2, ..., totalPages]; its length is
totalPages, it is empty when totalPages = 0, and it is the same list for every
other currentPage. -/
theorem C1_small_total_lists_all_pages (m : Machine) (currentPage totalPages : Int)
    (h0 : 0 ≤ totalPages) (h7 : totalPages ≤ 7) :
    ∃ p, NewPagination m currentPage totalPages = Outcome.ok p ∧
      p.PageNumbers = (List.range' 1 totalPages.toNat).map Int.ofNat ∧
      (p.PageNumbers.length : Int) = totalPages ∧
      (totalPages = 0 → p.PageNumbers = []) ∧
      ∀ otherPage : Int, ∃ q, NewPagination m otherPage totalPages = Outcome.ok q ∧
        q.PageNumbers = p.PageNumbers := by
  refine ⟨_, NewPagination_small m currentPage totalPages h0 h7, ?_, ?_, ?_, ?_⟩
  · simp only [consecutive, List.range'_eq_map_range, List.map_map]
    apply List.map_congr_left
    intro k _
    simp
  · simp [consecutive, h0]
  · intro h
    subst h
    rfl
  · intro otherPage
    exact ⟨_, NewPagination_small m otherPage totalPages h0 h7, rfl⟩

theorem C1_witness :
    (0 : Int) ≤ 3 ∧ (3 : Int) ≤ 7 ∧
    ∃ p, NewPagination sampleMachine 1 3 = Outcome.ok p ∧
      p.PageNumbers = (List.range' 1 (3 : Int).toNat).map Int.ofNat ∧
      (p.PageNumbers.length : Int) = 3 ∧
      ((3 : Int) = 0 → p.PageNumbers = []) ∧
      ∀ otherPage : Int, ∃ q, NewPagination sampleMachine otherPage 3 = Outcome.ok q ∧
        q.PageNumbers = p.PageNumbers :=
  ⟨by decide, by decide,
    C1_small_total_lists_all_pages sampleMachine 1 3 (by decide) (by decide)⟩

/-- C2: for every totalPages > 7 and every currentPage, the PageNumbers of the
value NewPagination returns is [1,2,3,4,5,totalPages] when currentPage <= 4;
otherwise [1, totalPages-4, ..., totalPages] when currentPage >= totalPages-3;
otherwise [1, currentPage-1, currentPage, currentPage+1, totalPages].  The call
returns whenever the machine grants a slice of capacity totalPages. -/
theorem C2_large_total_three_regimes (m : Machine) (currentPage totalPages : Int)
    (h : 7 < totalPages) :
    (∀ p, NewPagination m currentPage totalPages = Outcome.ok p →
      p.PageNumbers =
        if currentPage ≤ 4 then [1, 2, 3, 4, 5, totalPages]
        else if currentPage ≥ totalPages - 3 then
          [1, totalPages - 4, totalPages - 3, totalPages - 2, totalPages - 1, totalPages]
        else [1, currentPage - 1, currentPage, currentPage + 1, totalPages]) ∧
    (totalPages ≤ (m.maxCap : Int) →
      ∃ p, NewPagination m currentPage totalPages = Outcome.ok p) := by
  constructor
  · exact NewPagination_of_returned m currentPage totalPages _
      (fun hfit => ⟨_, NewPagination_large m currentPage totalPages h hfit, rfl⟩)
  · exact fun hfit => ⟨_, NewPagination_large m currentPage totalPages h hfit⟩

theorem C2_witness :
    (7 : Int) < 10 ∧
    NewPagination sampleMachine 5 10 = Outcome.ok ⟨5, 10, [1, 4, 5, 6, 10]⟩ ∧
    (⟨5, 10, [1, 4, 5, 6, 10]⟩ : Pagination).PageNumbers =
      if (5 : Int) ≤ 4 then [1, 2, 3, 4, 5, 10]
      else if (5 : Int) ≥ 10 - 3 then [1, 10 - 4, 10 - 3, 10 - 2, 10 - 1, 10]
      else [1, 5 - 1, 5, 5 + 1, 10] :=
  ⟨by decide, by decide,
    (C2_large_total_three_regimes sampleMachine 5 10 (by decide)).1 _ (by decide)⟩

/-- C3: for every currentPage (also outside [1, totalPages]) and every
totalPages >= 0, the PageNumbers of the value NewPagination returns is strictly
increasing; when totalPages > 7 the list contains 1 and totalPages, as its
first and its last element.  The call returns whenever the machine grants a
slice of capacity totalPages. -/
theorem C3_page_numbers_strictly_increasing (m : Machine) (currentPage totalPages : Int)
    (h0 : 0 ≤ totalPages) :
    (∀ p, NewPagination m currentPage totalPages = Outcome.ok p →
      p.PageNumbers.Sorted (· < ·) ∧
      (7 < totalPages →
        1 ∈ p.PageNumbers ∧ totalPages ∈ p.PageNumbers ∧
        p.PageNumbers.head? = some 1 ∧ p.PageNumbers.getLast? = some totalPages)) ∧
    (totalPages ≤ (m.maxCap : Int) →
      ∃ p, NewPagination m currentPage totalPages = Outcome.ok p) := by
  have hmain : totalPages ≤ (m.maxCap : Int) →
      ∃ p, NewPagination m currentPage totalPages = Outcome.ok p ∧
        (p.PageNumbers.Sorted (· < ·) ∧
        (7 < totalPages →
          1 ∈ p.PageNumbers ∧ totalPages ∈ p.PageNumbers ∧
          p.PageNumbers.head? = some 1 ∧ p.PageNumbers.getLast? = some totalPages)) := by
    intro hfit
    by_cases h7 : totalPages ≤ 7
    · refine ⟨_, NewPagination_small m currentPage totalPages h0 h7, ?_, ?_⟩
      · show (consecutive 1 totalPages.toNat).Sorted (· < ·)
        unfold consecutive
        apply List.Pairwise.map (R := (· < ·))
        · intro a b hab
          show (1 : Int) + (a : Int) < 1 + (b : Int)
          omega
        · exact List.pairwise_lt_range _
      · intro h; omega
    · have h8 : 7 < totalPages := by omega
      refine ⟨_, NewPagination_large m currentPage totalPages h8 hfit, ?_, ?_⟩
      · show List.Sorted (· < ·) (if currentPage ≤ 4 then _ else _)
        split_ifs with h4 hend
        · simp [List.Sorted]; omega
        · simp [List.Sorted]; omega
        · simp [List.Sorted]; omega
      · intro _
        show _ ∈ (if currentPage ≤ 4 then _ else _) ∧ _ ∈ (if currentPage ≤ 4 then _ else _) ∧
          List.head? (if currentPage ≤ 4 then _ else _) = _ ∧
          List.getLast? (if currentPage ≤ 4 then _ else _) = _
        split_ifs with h4 hend <;> simp
  constructor
  · exact NewPagination_of_returned m currentPage totalPages _ hmain
  · intro hfit
    obtain ⟨p, hp, _⟩ := hmain hfit
    exact ⟨p, hp⟩

theorem C3_witness :
    (0 : Int) ≤ 100 ∧
    NewPagination sampleMachine (-50) 100 = Outcome.ok ⟨-50, 100, [1, 2, 3, 4, 5, 100]⟩ ∧
    ((⟨-50, 100, [1, 2, 3, 4, 5, 100]⟩ : Pagination).PageNumbers.Sorted (· < ·) ∧
      ((7 : Int) < 100 →
        1 ∈ (⟨-50, 100, [1, 2, 3, 4, 5, 100]⟩ : Pagination).PageNumbers ∧
        (100 : Int) ∈ (⟨-50, 100, [1, 2, 3, 4, 5, 100]⟩ : Pagination).PageNumbers ∧
        (⟨-50, 100, [1, 2, 3, 4, 5, 100]⟩ : Pagination).PageNumbers.head? = some 1 ∧
        (⟨-50, 100, [1, 2, 3, 4, 5, 100]⟩ : Pagination).PageNumbers.getLast? = some 100)) :=
  ⟨by decide, by decide,
    (C3_page_numbers_strictly_increasing sampleMachine (-50) 100 (by decide)).1 _ (by decide)⟩

/-- C4 (as stated, refuted): NewPagination does not return for every pair of
integers; with totalPages = -1 the allocation `make([]int, 0, totalPages)`
panics. -/
theorem C4_counterexample_negative_total :
    NewPagination sampleMachine 1 (-1) = Outcome.panic ∧
    ¬ (NewPagination sampleMachine 1 (-1)).Returns := by
  refine ⟨by decide, ?_⟩
  rintro ⟨v, hv⟩
  have hp : NewPagination sampleMachine 1 (-1) = Outcome.panic := by decide
  rw [hp] at hv
  cases hv

/-- C4 (amended): for every currentPage, including zero, negative and
out-of-range values, and every totalPages from 0 up to the capacity the
machine grants for the page slice (never more than 2^45), NewPagination
returns a Pagination value; for every other totalPages it aborts. -/
theorem C4_returns_when_total_fits (m : Machine) (currentPage totalPages : Int)
    (h0 : 0 ≤ totalPages) (hfit : totalPages ≤ (m.maxCap : Int)) :
    (NewPagination m currentPage totalPages).Returns ∧
    (∀ (otherPage otherTotal : Int), (NewPagination m otherPage otherTotal).Returns →
      0 ≤ otherTotal ∧ otherTotal ≤ (m.maxCap : Int) ∧ otherTotal ≤ 35184372088832) := by
  constructor
  · by_cases h7 : totalPages ≤ 7
    · exact ⟨_, NewPagination_small m currentPage totalPages h0 h7⟩
    · exact ⟨_, NewPagination_large m currentPage totalPages (by omega) hfit⟩
  · rintro otherPage otherTotal ⟨p, hp⟩
    have hb := NewPagination_ok_fits m otherPage otherTotal p hp
    have := m.runtimeLimit
    exact ⟨hb.1, hb.2, by omega⟩

theorem C4_witness :
    (0 : Int) ≤ 0 ∧ (0 : Int) ≤ (sampleMachine.maxCap : Int) ∧
    (NewPagination sampleMachine (-5) 0).Returns :=
  ⟨by decide, by decide,
    (C4_returns_when_total_fits sampleMachine (-5) 0 (by decide) (by decide)).1⟩

/-- C5: for every totalPages > 7 and every currentPage, the PageNumbers of the
value NewPagination returns has 5 or 6 entries: 5 exactly when
5 <= currentPage <= totalPages-4 and 6 otherwise; the CurrentPage and
TotalPages fields of the result are the arguments.  The call returns whenever
the machine grants a slice of capacity totalPages. -/
theorem C5_large_total_length (m : Machine) (currentPage totalPages : Int)
    (h : 7 < totalPages) :
    (∀ p, NewPagination m currentPage totalPages = Outcome.ok p →
      p.CurrentPage = currentPage ∧ p.TotalPages = totalPages ∧
      (p.PageNumbers.length = 5 ∨ p.PageNumbers.length = 6) ∧
      (p.PageNumbers.length = 5 ↔ 5 ≤ currentPage ∧ currentPage ≤ totalPages - 4) ∧
      (p.PageNumbers.length = 6 ↔ ¬ (5 ≤ currentPage ∧ currentPage ≤ totalPages - 4))) ∧
    (totalPages ≤ (m.maxCap : Int) →
      ∃ p, NewPagination m currentPage totalPages = Outcome.ok p) := by
  constructor
  · apply NewPagination_of_returned m currentPage totalPages
    intro hfit
    refine ⟨_, NewPagination_large m currentPage totalPages h hfit, rfl, rfl, ?_⟩
    show (List.length (if currentPage ≤ 4 then _ else _) = 5 ∨
        List.length (if currentPage ≤ 4 then _ else _) = 6) ∧
      (List.length (if currentPage ≤ 4 then _ else _) = 5 ↔ _) ∧
      (List.length (if currentPage ≤ 4 then _ else _) = 6 ↔ _)
    split_ifs with h4 hend
    · simp; omega
    · simp; omega
    · simp; omega
  · exact fun hfit => ⟨_, NewPagination_large m currentPage totalPages h hfit⟩

theorem C5_witness :
    (7 : Int) < 10 ∧
    (NewPagination sampleMachine 1 10 = Outcome.ok ⟨1, 10, [1, 2, 3, 4, 5, 10]⟩ ∧
      (⟨1, 10, [1, 2, 3, 4, 5, 10]⟩ : Pagination).PageNumbers.length = 6) ∧
    (NewPagination sampleMachine 5 10 = Outcome.ok ⟨5, 10, [1, 4, 5, 6, 10]⟩ ∧
      (⟨5, 10, [1, 4, 5, 6, 10]⟩ : Pagination).PageNumbers.length = 5) ∧
    (NewPagination sampleMachine 9 10 = Outcome.ok ⟨9, 10, [1, 6, 7, 8, 9, 10]⟩ ∧
      (⟨9, 10, [1, 6, 7, 8, 9, 10]⟩ : Pagination).PageNumbers.length = 6) :=
  ⟨by decide,
    ⟨by decide,
      ((C5_large_total_length sampleMachine 1 10 (by decide)).1 _ (by decide)).2.2.2.2.mpr
        (by decide)⟩,
    ⟨by decide,
      ((C5_large_total_length sampleMachine 5 10 (by decide)).1 _ (by decide)).2.2.2.1.mpr
        (by decide)⟩,
    ⟨by decide,
      ((C5_large_total_length sampleMachine 9 10 (by decide)).1 _ (by decide)).2.2.2.2.mpr
        (by decide)⟩⟩

/-! ## Truncate -/

theorem sliceStr_zero (s : GoString) (hi : Int) (h0 : 0 ≤ hi) (h1 : hi ≤ (s.length : Int)) :
    sliceStr s 0 hi = Outcome.ok (s.take hi.toNat) := by
  simp [sliceStr, h0, h1]

/-- The cases of `TestTruncate`. -/
theorem Truncate_examples :
    Truncate (lit "hello") 10 = Outcome.ok (lit "hello") ∧
    Truncate (lit "hello world") 8 = Outcome.ok (lit "hello...") ∧
    Truncate (lit "hi") 2 = Outcome.ok (lit "hi") ∧
    Truncate (lit "hello") 3 = Outcome.ok (lit "hel") ∧
    Truncate (lit "hello") 5 = Outcome.ok (lit "hello") := by
  refine ⟨?_, ?_, ?_, ?_, ?_⟩ <;> decide

/-- C6: for every string s and every maxLen with maxLen > 3 and
len(s) > maxLen, Truncate(s, maxLen) is the first maxLen-3 bytes of s followed
by "...", and its length is exactly maxLen. -/
theorem C6_truncate_long_adds_ellipsis (s : GoString) (maxLen : Int)
    (h3 : 3 < maxLen) (hlen : maxLen < (s.length : Int)) :
    ∃ r, Truncate s maxLen = Outcome.ok r ∧
      r = s.take (maxLen - 3).toNat ++ lit "..." ∧
      (r.length : Int) = maxLen := by
  have h1 : ¬ (s.length : Int) ≤ maxLen := by omega
  have h2 : ¬ maxLen ≤ 3 := by omega
  refine ⟨s.take (maxLen - 3).toNat ++ lit "...", ?_, rfl, ?_⟩
  · simp only [Truncate, h1, h2, if_false]
    rw [sliceStr_zero s (maxLen - 3) (by omega) (by omega)]
    rfl
  · have hl : (lit "...").length = 3 := by decide
    rw [List.length_append, List.length_take, hl]
    omega

theorem C6_witness :
    (3 : Int) < 8 ∧ (8 : Int) < ((lit "hello world").length : Int) ∧
    ∃ r, Truncate (lit "hello world") 8 = Outcome.ok r ∧
      r = lit "hello..." ∧ (r.length : Int) = 8 :=
  ⟨by decide, by decide, C6_truncate_long_adds_ellipsis (lit "hello world") 8 (by decide) (by decide)⟩

/-- C7: for every string s and every maxLen >= len(s), Truncate(s, maxLen) = s;
in particular Truncate(s, len(s)) = s. -/
theorem C7_truncate_short_unchanged (s : GoString) (maxLen : Int)
    (h : (s.length : Int) ≤ maxLen) :
    Truncate s maxLen = Outcome.ok s ∧ Truncate s (s.length : Int) = Outcome.ok s := by
  simp [Truncate, h]

theorem C7_witness :
    ((lit "hi").length : Int) ≤ 2 ∧
    Truncate (lit "hi") 2 = Outcome.ok (lit "hi") ∧
    Truncate (lit "hi") ((lit "hi").length : Int) = Outcome.ok (lit "hi") :=
  ⟨by decide, C7_truncate_short_unchanged (lit "hi") 2 (by decide)⟩

/-- C8 (as stated, refuted): with the negative limit maxLen = -1 and
s = "hello" (so len(s) > maxLen and maxLen <= 3) the slice expression
`s[:maxLen]` panics; Truncate returns nothing. -/
theorem C8_counterexample_negative_limit :
    (-1 : Int) ≤ 3 ∧ (-1 : Int) < ((lit "hello").length : Int) ∧
    Truncate (lit "hello") (-1) = Outcome.panic ∧
    ¬ (Truncate (lit "hello") (-1)).Returns := by
  refine ⟨by decide, by decide, by decide, ?_⟩
  rintro ⟨v, hv⟩
  have hp : Truncate (lit "hello") (-1) = Outcome.panic := by decide
  rw [hp] at hv
  cases hv

/-- C8 (amended): for every string s and every maxLen with 0 <= maxLen <= 3
and len(s) > maxLen, Truncate(s, maxLen) returns the first maxLen bytes of s,
with no ellipsis. -/
theorem C8_truncate_tiny_limit_no_ellipsis (s : GoString) (maxLen : Int)
    (h0 : 0 ≤ maxLen) (h3 : maxLen ≤ 3) (hlen : maxLen < (s.length : Int)) :
    ∃ r, Truncate s maxLen = Outcome.ok r ∧
      r = s.take maxLen.toNat ∧ (r.length : Int) = maxLen := by
  have h1 : ¬ (s.length : Int) ≤ maxLen := by omega
  refine ⟨s.take maxLen.toNat, ?_, rfl, ?_⟩
  · simp only [Truncate, h1, h3, if_false, if_true]
    exact sliceStr_zero s maxLen h0 (by omega)
  · rw [List.length_take]
    omega

theorem C8_witness :
    (0 : Int) ≤ 3 ∧ (3 : Int) ≤ 3 ∧ (3 : Int) < ((lit "hello").length : Int) ∧
    ∃ r, Truncate (lit "hello") 3 = Outcome.ok r ∧
      r = lit "hel" ∧ (r.length : Int) = 3 :=
  ⟨by decide, by decide, by decide,
    C8_truncate_tiny_limit_no_ellipsis (lit "hello") 3 (by decide) (by decide) (by decide)⟩

/-! ## Grouping by threes -/

theorem chunks3_of_three_le (l : GoString) (h : 3 ≤ l.length) :
    chunks3 l = l.take 3 :: chunks3 (l.drop 3) := by
  match l, h with
  | a :: b :: c :: rest, _ => rfl

theorem chunks3_nil : chunks3 [] = [] := rfl

theorem chunks3_length (l : GoString) : ∀ g ∈ chunks3 l, g.length = 3 := by
  induction l using chunks3.induct with
  | case1 a b c rest ih =>
    intro g hg
    rw [chunks3] at hg
    rcases List.mem_cons.mp hg with h | h
    · subst h; rfl
    · exact ih g h
  | case2 l hl =>
    intro g hg
    rw [chunks3] at hg
    · cases hg
    · exact hl

theorem chunks3_join (l : GoString) (h : l.length % 3 = 0) : (chunks3 l).flatten = l := by
  induction l using chunks3.induct with
  | case1 a b c rest ih =>
    have hr : rest.length % 3 = 0 := by
      simp only [List.length_cons] at h
      omega
    rw [chunks3, List.flatten_cons, ih hr]
    rfl
  | case2 l hl =>
    match l, hl, h with
    | [], _, _ => rfl
    | [a], _, h => simp at h
    | [a, b], _, h => simp at h
    | a :: b :: c :: rest, hl, _ => exact absurd rfl (hl a b c rest)

theorem intercalate_cons_eq {α : Type} (sep : List α) (cs : List (List α)) :
    ∀ x : List α, sep.intercalate (x :: cs) = x ++ (cs.map (fun c => sep ++ c)).flatten := by
  induction cs with
  | nil => intro x; simp [List.intercalate]
  | cons c cs ih =>
    intro x
    have := ih c
    simp only [List.intercalate, List.intersperse, List.flatten_cons, List.map_cons] at this ⊢
    rw [this, List.append_assoc]

/-! ## insertCommas -/

theorem sliceStr_nat (s : GoString) (i k : Nat) (h : i + k ≤ s.length) :
    sliceStr s (i : Int) ((i : Int) + (k : Int)) = Outcome.ok ((s.drop i).take k) := by
  have hc : (0 : Int) ≤ (i : Int) ∧ (i : Int) ≤ (i : Int) + (k : Int) ∧
      (i : Int) + (k : Int) ≤ (s.length : Int) := by omega
  have e1 : ((i : Int) + (k : Int) - (i : Int)).toNat = k := by omega
  simp [sliceStr, hc, e1]

theorem insertCommasLoop_eq (s : GoString) :
    ∀ (fuel i : Nat) (b : GoString), b ≠ [] → i ≤ s.length → (s.length - i) % 3 = 0 →
      s.length - i ≤ 3 * fuel →
      insertCommasLoop s fuel (i : Int) b =
        Outcome.ok (b ++ ((chunks3 (s.drop i)).map (fun c => [comma] ++ c)).flatten) := by
  intro fuel
  induction fuel with
  | zero =>
    intro i b _ hi _ hf
    have hlen : i = s.length := by omega
    have hlt : ¬ (i : Int) < (s.length : Int) := by omega
    subst hlen
    simp [insertCommasLoop, chunks3_nil]
  | succ fuel ih =>
    intro i b hb hi hmod hf
    by_cases hlt : (i : Int) < (s.length : Int)
    · have h3 : i + 3 ≤ s.length := by omega
      have hbl : b.length > 0 := List.length_pos.mpr hb
      have hsl := sliceStr_nat s i 3 h3
      have hcast : ((i : Int) + 3) = ((i + 3 : Nat) : Int) := by push_cast; rfl
      have hrec := ih (i + 3) (b ++ [comma] ++ (s.drop i).take 3) (by simp) h3 (by omega) (by omega)
      have hch : chunks3 (s.drop i) = (s.drop i).take 3 :: chunks3 (s.drop (i + 3)) := by
        rw [chunks3_of_three_le (s.drop i) (by rw [List.length_drop]; omega), List.drop_drop]
      simp only [Nat.cast_ofNat] at hsl
      simp only [insertCommasLoop, hlt, if_true, hbl, hsl, Outcome.ok_bind]
      rw [hcast, hrec, hch]
      simp [List.append_assoc]
    · have hlen : i = s.length := by omega
      subst hlen
      simp [insertCommasLoop, chunks3_nil]

theorem leadLen_pos (len : Nat) : 1 ≤ leadLen len ∧ leadLen len ≤ 3 := by
  unfold leadLen
  split_ifs <;> omega

theorem leadLen_le (len : Nat) (h : 0 < len) : leadLen len ≤ len := by
  unfold leadLen
  split_ifs <;> omega

theorem leadLen_rest (len : Nat) (h : 0 < len) : (len - leadLen len) % 3 = 0 := by
  unfold leadLen
  split_ifs <;> omega

theorem insertCommas_eq (s : GoString) (hs : s ≠ []) :
    insertCommas s = Outcome.ok ([comma].intercalate (groupsOfThree s)) := by
  have hpos : 0 < s.length := List.length_pos.mpr hs
  rw [groupsOfThree, intercalate_cons_eq]
  by_cases h3 : s.length ≤ 3
  · have hl : leadLen s.length = s.length := by
      unfold leadLen
      split_ifs <;> omega
    simp [insertCommas, h3, hl, chunks3_nil]
  · by_cases hm : s.length % 3 = 0
    · have hl : leadLen s.length = 3 := by simp [leadLen, hm]
      have hst : ¬ ((s.length : Int) % 3 > 0) := by omega
      obtain ⟨m, hmf⟩ : ∃ m, s.length = m + 1 := ⟨s.length - 1, by omega⟩
      have hsl := sliceStr_nat s 0 3 (by omega)
      have hrec := insertCommasLoop_eq s m 3 (s.take 3)
        (List.ne_nil_of_length_pos (by rw [List.length_take]; omega))
        (by omega) (by omega) (by omega)
      simp only [Nat.cast_ofNat, Nat.cast_zero, zero_add, List.drop_zero] at hsl hrec
      have hstart : (s.length : Int) % 3 = 0 := by omega
      simp only [insertCommas, h3, if_false, hst, Outcome.pure_eq_ok, Outcome.ok_bind, hl]
      rw [hmf, insertCommasLoop, ← hmf, hstart]
      have hlt0 : (0 : Int) < (s.length : Int) := by omega
      simp only [hlt0, if_true, List.length_nil, gt_iff_lt, lt_self_iff_false, if_false,
        zero_add, hsl, Outcome.ok_bind, List.nil_append]
      exact hrec
    · have hl : leadLen s.length = s.length % 3 := by simp [leadLen, hm]
      have hcast : (s.length : Int) % 3 = ((s.length % 3 : Nat) : Int) := by omega
      have hsl := sliceStr_zero s ((s.length % 3 : Nat) : Int) (by omega) (by omega)
      have hrec := insertCommasLoop_eq s s.length (s.length % 3) (s.take (s.length % 3))
        (List.ne_nil_of_length_pos (by rw [List.length_take]; omega))
        (by omega) (by omega) (by omega)
      have hst2 : ((s.length % 3 : Nat) : Int) > 0 := by omega
      simp only [Int.toNat_ofNat] at hsl
      simp only [insertCommas, h3, if_false, hcast, hst2, if_true, hsl, Outcome.ok_bind, hl]
      exact hrec

/-! ## Decimal text -/

theorem digitByte_isDigit (d : Nat) (h : d < 10) : IsDigitByte (digitByte d) := by
  unfold IsDigitByte digitByte
  interval_cases d <;> decide

theorem IsDigitByte.ne_comma {b : UInt8} (h : IsDigitByte b) : b ≠ comma := by
  rintro rfl
  revert h
  unfold IsDigitByte comma
  decide

theorem decimalDigits_eq :
    ∀ (fuel n : Nat) (acc : GoString), 0 < n → n < fuel →
      decimalDigits fuel n acc = (Nat.digits 10 n).reverse.map digitByte ++ acc := by
  intro fuel
  induction fuel with
  | zero => intro n acc _ h; omega
  | succ fuel ih =>
    intro n acc hn hf
    by_cases hd : n / 10 = 0
    · have hlt : n < 10 := by omega
      have hmod : n % 10 = n := Nat.mod_eq_of_lt hlt
      simp [decimalDigits, hd, Nat.digits_of_lt 10 n (by omega) hlt, hmod]
    · have hrec := ih (n / 10) (digitByte (n % 10) :: acc) (by omega) (by omega)
      simp only [decimalDigits, hd, if_false, hrec]
      rw [Nat.digits_def' (by norm_num) hn]
      simp

theorem formatNat_eq (n : Nat) : formatNat n = decimalText n := by
  unfold formatNat decimalText
  by_cases h0 : n = 0
  · subst h0
    rfl
  · rw [if_neg h0, decimalDigits_eq (n + 1) n [] (by omega) (by omega), List.append_nil]

theorem decimalText_ne_nil (n : Nat) : decimalText n ≠ [] := by
  unfold decimalText
  split_ifs with h0
  · simp
  · simpa using Nat.digits_ne_nil_iff_ne_zero.mpr h0

theorem decimalText_isDigit (n : Nat) : ∀ b ∈ decimalText n, IsDigitByte b := by
  intro b hb
  unfold decimalText at hb
  split_ifs at hb with h0
  · rw [List.mem_singleton] at hb
    subst hb
    exact digitByte_isDigit 0 (by norm_num)
  · obtain ⟨d, hd, rfl⟩ := List.mem_map.mp hb
    exact digitByte_isDigit d (Nat.digits_lt_base (by norm_num) (List.mem_reverse.mp hd))

/-! ## Properties of the grouped text -/

theorem groupsOfThree_flatten (s : GoString) (hs : s ≠ []) : (groupsOfThree s).flatten = s := by
  have hpos : 0 < s.length := List.length_pos.mpr hs
  have hrest : (s.drop (leadLen s.length)).length % 3 = 0 := by
    rw [List.length_drop]
    exact leadLen_rest s.length hpos
  rw [groupsOfThree, List.flatten_cons, chunks3_join _ hrest, List.take_append_drop]

theorem groupsOfThree_mem (s : GoString) (hs : s ≠ []) :
    ∀ g ∈ groupsOfThree s, ∀ b ∈ g, b ∈ s := by
  intro g hg b hb
  have : b ∈ (groupsOfThree s).flatten := List.mem_flatten.mpr ⟨g, hg, hb⟩
  rwa [groupsOfThree_flatten s hs] at this

theorem groupsOfThree_head_length (s : GoString) (hs : s ≠ []) :
    1 ≤ (s.take (leadLen s.length)).length ∧ (s.take (leadLen s.length)).length ≤ 3 := by
  have hpos : 0 < s.length := List.length_pos.mpr hs
  have h1 := leadLen_pos s.length
  have h2 := leadLen_le s.length hpos
  rw [List.length_take]
  omega

theorem groupsOfThree_ne_nil (s : GoString) (hs : s ≠ []) : ∀ g ∈ groupsOfThree s, g ≠ [] := by
  intro g hg
  rcases List.mem_cons.mp hg with h | h
  · subst h
    exact List.ne_nil_of_length_pos (by have := (groupsOfThree_head_length s hs).1; omega)
  · exact List.ne_nil_of_length_pos (by rw [chunks3_length _ g h]; norm_num)

theorem filter_comma_groups (cs : List GoString) (h : ∀ c ∈ cs, comma ∉ c) :
    ((cs.map (fun c => [comma] ++ c)).flatten).filter (fun b => b != comma) = cs.flatten := by
  induction cs with
  | nil => rfl
  | cons c cs ih =>
    have hc : List.filter (fun b => b != comma) c = c :=
      List.filter_eq_self.mpr (fun a ha => by
        have : a ≠ comma := fun e => h c (List.mem_cons_self _ _) (e ▸ ha)
        simpa using this)
    have hrest := ih (fun c' hc' => h c' (List.mem_cons_of_mem _ hc'))
    simp only [List.map_cons, List.flatten_cons, List.filter_append, hrest, hc]
    simp [List.filter]

theorem filter_comma_intercalate (gs : List GoString) (h : ∀ g ∈ gs, comma ∉ g) :
    ([comma].intercalate gs).filter (fun b => b != comma) = gs.flatten := by
  cases gs with
  | nil => rfl
  | cons x cs =>
    have hx : List.filter (fun b => b != comma) x = x :=
      List.filter_eq_self.mpr (fun a ha => by
        have : a ≠ comma := fun e => h x (List.mem_cons_self _ _) (e ▸ ha)
        simpa using this)
    rw [intercalate_cons_eq, List.filter_append, hx,
      filter_comma_groups cs (fun c hc => h c (List.mem_cons_of_mem _ hc)), List.flatten_cons]

theorem getLast_groups {α : Type} (sep : List α) (cs : List (List α)) :
    ∀ x : List α, (∀ g ∈ x :: cs, g ≠ []) →
      ∃ g ∈ x :: cs, ∃ y ∈ g, (x ++ (cs.map (fun c => sep ++ c)).flatten).getLast? = some y := by
  induction cs with
  | nil =>
    intro x hx
    have hne : x ≠ [] := hx x (List.mem_cons_self _ _)
    refine ⟨x, List.mem_cons_self _ _, x.getLast hne, List.getLast_mem hne, ?_⟩
    simp [List.getLast?_eq_getLast _ hne]
  | cons c cs ih =>
    intro x hx
    obtain ⟨g, hg, y, hy, hlast⟩ := ih c (fun g hg => hx g (List.mem_cons_of_mem _ hg))
    refine ⟨g, List.mem_cons_of_mem _ hg, y, hy, ?_⟩
    have : x ++ ((c :: cs).map (fun c => sep ++ c)).flatten =
        (x ++ sep) ++ (c ++ (cs.map (fun c => sep ++ c)).flatten) := by
      simp [List.append_assoc]
    rw [this, List.getLast?_append, hlast]
    rfl

theorem grouped_no_outer_comma (s : GoString) (hs : s ≠ []) (hd : ∀ b ∈ s, IsDigitByte b) :
    ([comma].intercalate (groupsOfThree s)).head? ≠ some comma ∧
    ([comma].intercalate (groupsOfThree s)).getLast? ≠ some comma := by
  have hne := groupsOfThree_ne_nil s hs
  have hmem := groupsOfThree_mem s hs
  rw [groupsOfThree] at hne hmem ⊢
  rw [intercalate_cons_eq]
  constructor
  · intro hhead
    rw [List.head?_append_of_ne_nil _ (hne _ (List.mem_cons_self _ _))] at hhead
    have h1 : comma ∈ s.take (leadLen s.length) := List.mem_of_mem_head? hhead
    exact (hd comma (hmem _ (List.mem_cons_self _ _) comma h1)).ne_comma rfl
  · intro hlast
    obtain ⟨g, hg, y, hy, hl⟩ := getLast_groups [comma] _ _ hne
    rw [hl] at hlast
    have hyc : y = comma := Option.some.inj hlast
    exact (hd y (hmem g hg y hy)).ne_comma hyc

/-! ## Claims about FormatNumber -/

theorem FormatNumber_nonneg (n : Int) (h0 : 0 ≤ n) :
    FormatNumber n =
      Outcome.ok ([comma].intercalate (groupsOfThree (decimalText n.toNat))) := by
  have hneg : ¬ n < 0 := by omega
  simp only [FormatNumber, strconv.FormatInt, hneg, if_false, formatNat_eq]
  exact insertCommas_eq _ (decimalText_ne_nil _)

theorem FormatNumber_neg (n : Int) (hneg : n < 0) :
    FormatNumber n =
      Outcome.ok (lit "-" ++ [comma].intercalate (groupsOfThree (decimalText n.natAbs))) := by
  have hsl : ∀ d : GoString, sliceStr (minus :: d) 1 ((minus :: d).length : Int) = Outcome.ok d := by
    intro d
    have hc : (0 : Int) ≤ 1 ∧ (1 : Int) ≤ ((minus :: d).length : Int) ∧
        ((minus :: d).length : Int) ≤ ((minus :: d).length : Int) := by
      simp only [List.length_cons]
      omega
    have e : (((minus :: d).length : Int) - 1).toNat = d.length := by
      simp only [List.length_cons]
      omega
    simp only [sliceStr, hc, and_self, if_true, e]
    simp
  simp only [FormatNumber, strconv.FormatInt, hneg, if_true, formatNat_eq, hsl,
    Outcome.ok_bind, insertCommas_eq _ (decimalText_ne_nil _), Outcome.pure_eq_ok]

/-- C9: for every 64-bit integer n >= 0, FormatNumber(n) is the decimal text of
n with a comma every three digits from the right: deleting the commas gives the
decimal digits of n; splitting on ',' gives a first group of 1 to 3 digits and
then groups of exactly 3 digits; the text neither starts nor ends with a
comma. -/
theorem C9_format_number_groups_by_three (n : Int) (h0 : 0 ≤ n)
    (_h64 : n ≤ 9223372036854775807) :
    ∃ r first rest, FormatNumber n = Outcome.ok r ∧
      r = [comma].intercalate (groupsOfThree (decimalText n.toNat)) ∧
      r.filter (fun b => b != comma) = decimalText n.toNat ∧
      r.splitOn comma = first :: rest ∧
      1 ≤ first.length ∧ first.length ≤ 3 ∧ (∀ g ∈ rest, g.length = 3) ∧
      (∀ g ∈ first :: rest, ∀ b ∈ g, IsDigitByte b) ∧
      r.head? ≠ some comma ∧ r.getLast? ≠ some comma := by
  have hs := decimalText_ne_nil n.toNat
  have hd := decimalText_isDigit n.toNat
  have hmem := groupsOfThree_mem _ hs
  have hnc : ∀ g ∈ groupsOfThree (decimalText n.toNat), comma ∉ g :=
    fun g hg hc => (hd comma (hmem g hg comma hc)).ne_comma rfl
  have hlen := groupsOfThree_head_length _ hs
  have houter := grouped_no_outer_comma _ hs hd
  refine ⟨[comma].intercalate (groupsOfThree (decimalText n.toNat)),
    (decimalText n.toNat).take (leadLen (decimalText n.toNat).length),
    chunks3 ((decimalText n.toNat).drop (leadLen (decimalText n.toNat).length)),
    FormatNumber_nonneg n h0, rfl, ?_, ?_, hlen.1, hlen.2, ?_, ?_, houter.1, houter.2⟩
  · rw [filter_comma_intercalate _ hnc, groupsOfThree_flatten _ hs]
  · exact List.splitOn_intercalate _ comma hnc (by simp [groupsOfThree])
  · exact chunks3_length _
  · exact fun g hg b hb => hd b (hmem g hg b hb)

theorem C9_witness :
    (0 : Int) ≤ 1234567 ∧ (1234567 : Int) ≤ 9223372036854775807 ∧
    ∃ r first rest, FormatNumber 1234567 = Outcome.ok r ∧
      r = [comma].intercalate (groupsOfThree (decimalText (1234567 : Int).toNat)) ∧
      r.filter (fun b => b != comma) = decimalText (1234567 : Int).toNat ∧
      r.splitOn comma = first :: rest ∧
      1 ≤ first.length ∧ first.length ≤ 3 ∧ (∀ g ∈ rest, g.length = 3) ∧
      (∀ g ∈ first :: rest, ∀ b ∈ g, IsDigitByte b) ∧
      r.head? ≠ some comma ∧ r.getLast? ≠ some comma :=
  ⟨by decide, by decide, C9_format_number_groups_by_three 1234567 (by decide) (by decide)⟩

/-- C10: for every negative 64-bit integer n, down to -2^63, FormatNumber(n) is
"-" followed by the comma-grouped decimal digits of |n|; the grouped part does
not start with a comma, so the text never starts with "-,"; and when -n is a
64-bit integer, FormatNumber(n) = "-" ++ FormatNumber(-n). -/
theorem C10_format_number_negative_sign_outside (n : Int) (hneg : n < 0)
    (_h64 : -9223372036854775808 ≤ n) :
    ∃ r, FormatNumber n = Outcome.ok (lit "-" ++ r) ∧
      r = [comma].intercalate (groupsOfThree (decimalText n.natAbs)) ∧
      r.head? ≠ some comma ∧
      ¬ (lit "-,") <+: (lit "-" ++ r) ∧
      (-n ≤ 9223372036854775807 → FormatNumber (-n) = Outcome.ok r) := by
  have hs := decimalText_ne_nil n.natAbs
  have hd := decimalText_isDigit n.natAbs
  have houter := grouped_no_outer_comma _ hs hd
  refine ⟨_, FormatNumber_neg n hneg, rfl, houter.1, ?_, ?_⟩
  · intro hpre
    obtain ⟨t, ht⟩ := hpre
    have e1 : lit "-," = [minus, comma] := by decide
    have e2 : lit "-" = [minus] := by decide
    rw [e1, e2] at ht
    simp only [List.cons_append, List.nil_append, List.cons.injEq, true_and] at ht
    apply houter.1
    rw [← ht]
    rfl
  · intro _
    have habs : (-n).toNat = n.natAbs := by omega
    rw [FormatNumber_nonneg (-n) (by omega), habs]

theorem C10_witness :
    (-9223372036854775808 : Int) < 0 ∧
    (-9223372036854775808 : Int) ≤ -9223372036854775808 ∧
    ∃ r, FormatNumber (-9223372036854775808) = Outcome.ok (lit "-" ++ r) ∧
      r = [comma].intercalate
        (groupsOfThree (decimalText (-9223372036854775808 : Int).natAbs)) ∧
      r.head? ≠ some comma ∧
      ¬ (lit "-,") <+: (lit "-" ++ r) ∧
      (-(-9223372036854775808 : Int) ≤ 9223372036854775807 →
        FormatNumber (-(-9223372036854775808)) = Outcome.ok r) :=
  ⟨by decide, by decide,
    C10_format_number_negative_sign_outside (-9223372036854775808) (by decide) (by decide)⟩

/-- The cases of `TestFormatNumber`, and the two ends of the 64-bit range. -/
theorem FormatNumber_examples :
    FormatNumber 0 = Outcome.ok (lit "0") ∧
    FormatNumber 999 = Outcome.ok (lit "999") ∧
    FormatNumber 1000 = Outcome.ok (lit "1,000") ∧
    FormatNumber 1234567 = Outcome.ok (lit "1,234,567") ∧
    FormatNumber (-1234) = Outcome.ok (lit "-1,234") ∧
    FormatNumber 9223372036854775807 = Outcome.ok (lit "9,223,372,036,854,775,807") ∧
    FormatNumber (-9223372036854775808) = Outcome.ok (lit "-9,223,372,036,854,775,808") := by
  refine ⟨?_, ?_, ?_, ?_, ?_, ?_, ?_⟩ <;> decide

/-! ## Further claims about NewPagination and Truncate -/

theorem Truncate_of_length_le (s : GoString) (maxLen : Int)
    (h : (s.length : Int) ≤ maxLen) : Truncate s maxLen = Outcome.ok s := by
  simp [Truncate, h]

/-- C19: for every totalPages >= 1 and every currentPage with
1 <= currentPage <= totalPages, currentPage is an element of the PageNumbers of
the value NewPagination returns, and every element of PageNumbers lies in
[1, totalPages].  The call returns whenever the machine grants a slice of
capacity totalPages. -/
theorem C19_current_page_listed_and_in_range (m : Machine) (currentPage totalPages : Int)
    (h1 : 1 ≤ currentPage) (h2 : currentPage ≤ totalPages) :
    (∀ p, NewPagination m currentPage totalPages = Outcome.ok p →
      currentPage ∈ p.PageNumbers ∧
      ∀ x ∈ p.PageNumbers, 1 ≤ x ∧ x ≤ totalPages) ∧
    (totalPages ≤ (m.maxCap : Int) →
      ∃ p, NewPagination m currentPage totalPages = Outcome.ok p) := by
  have hmain : totalPages ≤ (m.maxCap : Int) →
      ∃ p, NewPagination m currentPage totalPages = Outcome.ok p ∧
        (currentPage ∈ p.PageNumbers ∧ ∀ x ∈ p.PageNumbers, 1 ≤ x ∧ x ≤ totalPages) := by
    intro hfit
    by_cases h7 : totalPages ≤ 7
    · refine ⟨_, NewPagination_small m currentPage totalPages (by omega) h7, ?_, ?_⟩
      · show currentPage ∈ consecutive 1 totalPages.toNat
        unfold consecutive
        refine List.mem_map.mpr ⟨(currentPage - 1).toNat, List.mem_range.mpr (by omega), by omega⟩
      · intro x hx
        change x ∈ consecutive 1 totalPages.toNat at hx
        unfold consecutive at hx
        obtain ⟨k, hk, rfl⟩ := List.mem_map.mp hx
        have := List.mem_range.mp hk
        omega
    · refine ⟨_, NewPagination_large m currentPage totalPages (by omega) hfit, ?_, ?_⟩
      · show currentPage ∈ (if currentPage ≤ 4 then _ else _)
        split_ifs with h4 hend
        · simp only [List.mem_cons, List.mem_singleton, List.not_mem_nil, or_false]
          omega
        · simp only [List.mem_cons, List.mem_singleton, List.not_mem_nil, or_false]
          omega
        · simp
      · intro x hx
        change x ∈ (if currentPage ≤ 4 then _ else _) at hx
        split_ifs at hx with h4 hend <;>
          simp only [List.mem_cons, List.mem_singleton, List.not_mem_nil, or_false] at hx <;>
          omega
  constructor
  · exact NewPagination_of_returned m currentPage totalPages _ hmain
  · intro hfit
    obtain ⟨p, hp, _⟩ := hmain hfit
    exact ⟨p, hp⟩

theorem C19_witness :
    (1 : Int) ≤ 7 ∧ (7 : Int) ≤ 20 ∧
    NewPagination sampleMachine 7 20 = Outcome.ok ⟨7, 20, [1, 6, 7, 8, 20]⟩ ∧
    ((7 : Int) ∈ (⟨7, 20, [1, 6, 7, 8, 20]⟩ : Pagination).PageNumbers ∧
      ∀ x ∈ (⟨7, 20, [1, 6, 7, 8, 20]⟩ : Pagination).PageNumbers, 1 ≤ x ∧ x ≤ (20 : Int)) :=
  ⟨by decide, by decide, by decide,
    (C19_current_page_listed_and_in_range sampleMachine 7 20 (by decide) (by decide)).1 _
      (by decide)⟩

/-- C20: for every string s and every maxLen >= 0, Truncate(s, maxLen) returns
a string of length min(len(s), maxLen), and truncating that result again with
the same limit gives it back unchanged. -/
theorem C20_truncate_length_and_idempotent (s : GoString) (maxLen : Int) (h0 : 0 ≤ maxLen) :
    ∃ r, Truncate s maxLen = Outcome.ok r ∧
      (r.length : Int) = min (s.length : Int) maxLen ∧
      Truncate r maxLen = Outcome.ok r := by
  by_cases hle : (s.length : Int) ≤ maxLen
  · refine ⟨s, (Truncate_of_length_le s maxLen hle), ?_, (Truncate_of_length_le s maxLen hle)⟩
    omega
  · by_cases h3 : maxLen ≤ 3
    · have hr : Truncate s maxLen = Outcome.ok (s.take maxLen.toNat) := by
        simp only [Truncate, hle, h3, if_false, if_true]
        exact sliceStr_zero s maxLen h0 (by omega)
      have hlen : ((s.take maxLen.toNat).length : Int) = maxLen := by
        rw [List.length_take]
        omega
      exact ⟨_, hr, by omega, Truncate_of_length_le _ maxLen (by omega)⟩
    · have hr : Truncate s maxLen = Outcome.ok (s.take (maxLen - 3).toNat ++ lit "...") := by
        simp only [Truncate, hle, h3, if_false]
        rw [sliceStr_zero s (maxLen - 3) (by omega) (by omega)]
        rfl
      have hl : (lit "...").length = 3 := by decide
      have hlen : ((s.take (maxLen - 3).toNat ++ lit "...").length : Int) = maxLen := by
        rw [List.length_append, List.length_take, hl]
        omega
      exact ⟨_, hr, by omega, Truncate_of_length_le _ maxLen (by omega)⟩

theorem C20_witness :
    (0 : Int) ≤ 8 ∧
    ∃ r, Truncate (lit "hello world") 8 = Outcome.ok r ∧
      (r.length : Int) = min ((lit "hello world").length : Int) 8 ∧
      Truncate r 8 = Outcome.ok r :=
  ⟨by decide, C20_truncate_length_and_idempotent (lit "hello world") 8 (by decide)⟩

/-! ## The template function seq -/

theorem seq_eq (m : Machine) (start end_ : Int) (hs : -9223372036854775808 ≤ start)
    (he : end_ ≤ 9223372036854775806) (h : start - 1 ≤ end_)
    (hfit : end_ - start + 1 ≤ (m.maxCap : Int)) :
    FuncMap.seq m start end_ = Outcome.ok (consecutive start (end_ + 1 - start).toNat) := by
  have hlimit := m.runtimeLimit
  have w1 : wrapInt (end_ - start) = end_ - start := wrapInt_of_range _ (by omega) (by omega)
  have w2 : wrapInt (end_ - start + 1) = end_ - start + 1 :=
    wrapInt_of_range _ (by omega) (by omega)
  have hcap : ¬ (end_ - start + 1 < 0 ∨ (m.maxCap : Int) < end_ - start + 1) := by omega
  have hloop := appendRange_eq start end_ [] hs he
  simp [FuncMap.seq, makeIntSlice, w1, w2, hcap, hloop]

/-- The template function `seq` on a few inputs.  With end = 2^63 - 1 the loop
never exits; with (start, end) = (2^63 - 1, -2^63) the capacity wraps to 2 and
the call returns the empty list. -/
theorem seq_examples :
    FuncMap.seq sampleMachine 1 5 = Outcome.ok [1, 2, 3, 4, 5] ∧
    FuncMap.seq sampleMachine (-2) 1 = Outcome.ok [-2, -1, 0, 1] ∧
    FuncMap.seq sampleMachine 3 3 = Outcome.ok [3] ∧
    FuncMap.seq sampleMachine 3 2 = Outcome.ok [] ∧
    FuncMap.seq sampleMachine 3 1 = Outcome.panic ∧
    FuncMap.seq sampleMachine 9223372036854775807 9223372036854775807 = Outcome.timeout ∧
    FuncMap.seq sampleMachine 9223372036854775807 (-9223372036854775808) = Outcome.ok [] := by
  refine ⟨?_, ?_, ?_, ?_, ?_, ?_, ?_⟩ <;> decide

/-- C18 (as stated, refuted): seq does not return for every pair of integers;
for (start, end) = (5, 1) the capacity `end-start+1` is -3 and the allocation
`make([]int, 0, end-start+1)` panics, although end < start. -/
theorem C18_counterexample_seq_descending :
    (1 : Int) < 5 ∧ FuncMap.seq sampleMachine 5 1 = Outcome.panic ∧
    ¬ (FuncMap.seq sampleMachine 5 1).Returns := by
  refine ⟨by decide, by decide, ?_⟩
  rintro ⟨v, hv⟩
  have hp : FuncMap.seq sampleMachine 5 1 = Outcome.panic := by decide
  rw [hp] at hv
  cases hv

/-- C18 (amended): for every pair of `int` values (start, end) with
start - 1 <= end < 2^63 - 1 whose element count end - start + 1 is within the
capacity the machine grants, seq returns a list: the consecutive integers
start, start+1, ..., end when start <= end, and the empty list when
end = start - 1. -/
theorem C18_seq_returns_within_bounds (m : Machine) (start end_ : Int)
    (hs : -9223372036854775808 ≤ start) (he : end_ ≤ 9223372036854775806)
    (h : start - 1 ≤ end_) (hfit : end_ - start + 1 ≤ (m.maxCap : Int)) :
    ∃ l, FuncMap.seq m start end_ = Outcome.ok l ∧
      (l.length : Int) = end_ - start + 1 ∧
      (∀ (k : Nat) (hk : k < l.length), l.get ⟨k, hk⟩ = start + (k : Int)) ∧
      (end_ = start - 1 → l = []) ∧
      (start ≤ end_ → l.head? = some start ∧ l.getLast? = some end_) := by
  refine ⟨_, seq_eq m start end_ hs he h hfit, ?_, ?_, ?_, ?_⟩
  · simp only [consecutive, List.length_map, List.length_range]
    omega
  · intro k hk
    simp [consecutive]
  · intro hempty
    have : (end_ + 1 - start).toNat = 0 := by omega
    rw [this]
    rfl
  · intro hle
    obtain ⟨n, hn⟩ : ∃ n, (end_ + 1 - start).toNat = n + 1 :=
      ⟨(end_ - start).toNat, by omega⟩
    rw [hn]
    constructor
    · rw [consecutive_succ]
      rfl
    · have hlast : (consecutive start (n + 1)).getLast? = some (start + (n : Int)) := by
        simp [consecutive, List.range_succ]
      rw [hlast]
      congr 1
      omega

theorem C18_witness :
    (-9223372036854775808 : Int) ≤ 1 ∧ (5 : Int) ≤ 9223372036854775806 ∧
    ((1 : Int) - 1 ≤ 5) ∧ ((5 : Int) - 1 + 1 ≤ (sampleMachine.maxCap : Int)) ∧
    ∃ l, FuncMap.seq sampleMachine 1 5 = Outcome.ok l ∧
      (l.length : Int) = 5 - 1 + 1 ∧
      (∀ (k : Nat) (hk : k < l.length), l.get ⟨k, hk⟩ = 1 + (k : Int)) ∧
      ((5 : Int) = 1 - 1 → l = []) ∧
      ((1 : Int) ≤ 5 → l.head? = some 1 ∧ l.getLast? = some 5) :=
  ⟨by decide, by decide, by decide, by decide,
    C18_seq_returns_within_bounds sampleMachine 1 5 (by decide) (by decide) (by decide)
      (by decide)⟩

/-! ## Zero values, default and coalesce -/

theorem isZeroValue_iff (v : GoValue) : isZeroValue v = true ↔ ZeroValueEquivalent v := by
  cases v <;> simp [isZeroValue, ZeroValueEquivalent, floatIsZero]

theorem isZeroValue_eq_false_iff (v : GoValue) :
    isZeroValue v = false ↔ ¬ ZeroValueEquivalent v := by
  rw [← isZeroValue_iff]
  cases isZeroValue v <;> simp

theorem coalesce_of_all_zero (vals : List GoValue)
    (h : ∀ v ∈ vals, ZeroValueEquivalent v) : FuncMap.coalesce vals = GoValue.nil := by
  induction vals with
  | nil => rfl
  | cons v rest ih =>
    have hv : isZeroValue v = true := (isZeroValue_iff v).mpr (h v (List.mem_cons_self _ _))
    simp only [FuncMap.coalesce, hv, Bool.not_true, Bool.false_eq_true, if_false]
    exact ih (fun u hu => h u (List.mem_cons_of_mem _ hu))

theorem coalesce_of_first_nonzero (pre post : List GoValue) (v : GoValue)
    (hpre : ∀ u ∈ pre, ZeroValueEquivalent u) (hv : ¬ ZeroValueEquivalent v) :
    FuncMap.coalesce (pre ++ v :: post) = v := by
  induction pre with
  | nil =>
    have : isZeroValue v = false := (isZeroValue_eq_false_iff v).mpr hv
    simp [FuncMap.coalesce, this]
  | cons u rest ih =>
    have hu : isZeroValue u = true := (isZeroValue_iff u).mpr (hpre u (List.mem_cons_self _ _))
    simp only [List.cons_append, FuncMap.coalesce, hu, Bool.not_true, Bool.false_eq_true,
      if_false]
    exact ih (fun w hw => hpre w (List.mem_cons_of_mem _ hw))

theorem exists_first_nonzero (vals : List GoValue)
    (h : ∃ v ∈ vals, ¬ ZeroValueEquivalent v) :
    ∃ pre v post, vals = pre ++ v :: post ∧
      (∀ u ∈ pre, ZeroValueEquivalent u) ∧ ¬ ZeroValueEquivalent v := by
  induction vals with
  | nil =>
    obtain ⟨v, hv, _⟩ := h
    cases hv
  | cons a rest ih =>
    by_cases ha : ZeroValueEquivalent a
    · obtain ⟨v, hv, hnz⟩ := h
      have hrest : ∃ v ∈ rest, ¬ ZeroValueEquivalent v := by
        rcases List.mem_cons.mp hv with rfl | hmem
        · exact absurd ha hnz
        · exact ⟨v, hmem, hnz⟩
      obtain ⟨pre, w, post, heq, hpre, hw⟩ := ih hrest
      refine ⟨a :: pre, w, post, by rw [heq]; rfl, ?_, hw⟩
      intro u hu
      rcases List.mem_cons.mp hu with rfl | hmem
      · exact ha
      · exact hpre u hmem
    · exact ⟨[], a, rest, rfl, fun u hu => absurd hu (List.not_mem_nil u), ha⟩

/-- The template functions `coalesce` and `default` on a few inputs. -/
theorem coalesce_default_examples :
    FuncMap.coalesce [] = GoValue.nil ∧
    FuncMap.coalesce [GoValue.nil, GoValue.str false (lit ""), GoValue.bool false false,
      GoValue.int false IntKind.int 0, GoValue.slice [], GoValue.str false (lit "x"),
      GoValue.int false IntKind.int 7] = GoValue.str false (lit "x") ∧
    FuncMap.default (GoValue.str false (lit "n/a")) (GoValue.str false (lit "")) =
      GoValue.str false (lit "n/a") ∧
    FuncMap.default (GoValue.str false (lit "n/a")) (GoValue.str false (lit "yes")) =
      GoValue.str false (lit "yes") :=
  ⟨rfl, rfl, rfl, rfl⟩

/-- Where no argument is a zero of kind `uintptr` or of a complex kind,
coalesce returns the first argument that is not a zero-value equivalent, and
nil exactly when there is none. -/
theorem coalesce_first_nonzero (vals : List GoValue) :
    (∀ pre v post, vals = pre ++ v :: post → (∀ u ∈ pre, ZeroValueEquivalent u) →
        ¬ ZeroValueEquivalent v → FuncMap.coalesce vals = v) ∧
    (FuncMap.coalesce vals = GoValue.nil ↔ ∀ v ∈ vals, ZeroValueEquivalent v) := by
  refine ⟨?_, ?_⟩
  · intro pre v post heq hpre hv
    rw [heq]
    exact coalesce_of_first_nonzero pre post v hpre hv
  · constructor
    · intro hnil
      by_contra hall
      push_neg at hall
      obtain ⟨pre, v, post, heq, hpre, hv⟩ := exists_first_nonzero vals hall
      rw [heq, coalesce_of_first_nonzero pre post v hpre hv] at hnil
      rw [hnil] at hv
      exact hv trivial
    · exact coalesce_of_all_zero vals

/-- C15 (the code at the failing input): complex128(0) is a numeric zero, but
isZeroValue has no case for the complex kinds and reports it as non-zero; so
coalesce(complex128(0), "x") returns the complex zero, not "x", and
coalesce(complex128(0)) is not nil although its only argument is a zero-value
equivalent.  The same holds of uintptr(0). -/
theorem C15_coalesce_keeps_complex_zero :
    ZeroValueAsSpecified (GoValue.complex false ComplexKind.complex128 0 0) ∧
    ¬ ZeroValueAsSpecified (GoValue.str false (lit "x")) ∧
    isZeroValue (GoValue.complex false ComplexKind.complex128 0 0) = false ∧
    FuncMap.coalesce [GoValue.complex false ComplexKind.complex128 0 0,
      GoValue.str false (lit "x")] = GoValue.complex false ComplexKind.complex128 0 0 ∧
    FuncMap.coalesce [GoValue.complex false ComplexKind.complex128 0 0,
      GoValue.str false (lit "x")] ≠ GoValue.str false (lit "x") ∧
    FuncMap.coalesce [GoValue.complex false ComplexKind.complex128 0 0] ≠ GoValue.nil ∧
    ZeroValueAsSpecified (GoValue.uintptr false 0) ∧
    FuncMap.coalesce [GoValue.uintptr false 0, GoValue.str false (lit "x")] =
      GoValue.uintptr false 0 := by
  refine ⟨⟨rfl, rfl⟩, ?_, rfl, rfl, ?_, ?_, rfl, rfl⟩
  · show ¬ (lit "x" = [])
    decide
  · intro h
    cases h
  · intro h
    cases h

theorem lookup_foldl_insert {V : Type} (l : List (Sigma (fun _ : GoString => V))) :
    l.NodupKeys → ∀ (m : Entries V) (k : GoString),
      (l.foldl (fun acc e => acc.insert e.1 e.2) m).lookup k =
        match List.dlookup k l with
        | some v => some v
        | none => m.lookup k := by
  induction l with
  | nil => intro _ m k; rfl
  | cons e rest ih =>
    intro hnd m k
    have hrest : rest.NodupKeys := (List.nodupKeys_cons.mp hnd).2
    have hnotin : e.1 ∉ rest.keys := (List.nodupKeys_cons.mp hnd).1
    rw [List.foldl_cons, ih hrest]
    by_cases hk : k = e.1
    · subst hk
      have hnone : List.dlookup e.1 rest = none := List.dlookup_eq_none.mpr hnotin
      obtain ⟨ek, ev⟩ := e
      simp [hnone, List.dlookup_cons_eq, AList.lookup_insert]
    · obtain ⟨ek, ev⟩ := e
      rw [List.dlookup_cons_ne _ _ hk, AList.lookup_insert_ne hk]

theorem assignAll_lookup {V : Type} (m : GoMap V) (merged : Entries V) (k : GoString) :
    (assignAll m merged).lookup k =
      match m.lookup k with
      | some v => some v
      | none => merged.lookup k := by
  cases m with
  | nil => rfl
  | made entries => exact lookup_foldl_insert entries.entries entries.nodupKeys merged k

/-- C13: for every pair of function maps base and extra and every key k,
MergeFuncMap(base, extra) maps k to extra[k] if k is a key of extra, otherwise
to base[k] if k is a key of base, and has no entry for k otherwise; so its keys
are the union of the keys, and on a common key the entry of extra wins. -/
theorem C13_merge_second_wins {V : Type} (base extra : GoMap V) (k : GoString) :
    (MergeFuncMap base extra).lookup k =
      (match extra.lookup k with
       | some f => some f
       | none => base.lookup k) ∧
    (((MergeFuncMap base extra).lookup k).isSome ↔
      (base.lookup k).isSome ∨ (extra.lookup k).isSome) ∧
    (∀ f, extra.lookup k = some f → (MergeFuncMap base extra).lookup k = some f) := by
  have hmain : (MergeFuncMap base extra).lookup k =
      (match extra.lookup k with
       | some f => some f
       | none => base.lookup k) := by
    show (assignAll extra (assignAll base ∅)).lookup k = _
    rw [assignAll_lookup, assignAll_lookup]
    cases extra.lookup k with
    | some f => rfl
    | none =>
      cases base.lookup k with
      | some g => rfl
      | none => rfl
  refine ⟨hmain, ?_, ?_⟩
  · rw [hmain]
    cases extra.lookup k <;> cases base.lookup k <;> simp
  · intro f hf
    rw [hmain, hf]

/-! ## The template function dict -/

theorem isStringKey_iff (k : GoString) (a : GoValue) :
    isStringKey k a = true ↔ a = GoValue.str false k := by
  cases a with
  | str defined s =>
    cases defined <;> simp [isStringKey]
  | _ => simp [isStringKey]

theorem indexAny_of_lt (values : List GoValue) (i : Nat) (h : i < values.length) :
    indexAny values i = Outcome.ok (values.get ⟨i, h⟩) := by
  rw [indexAny, List.get?_eq_get h]

theorem storePairs_cons_cons (a b : GoValue) (rest : List GoValue) (d : Entries GoValue) :
    storePairs (a :: b :: rest) d =
      (match a with
       | GoValue.str false key => storePairs rest (d.insert key b)
       | _ => storePairs rest d) := by
  cases a with
  | str defined s => cases defined <;> rfl
  | _ => rfl

theorem dictLoop_eq (values : List GoValue) :
    ∀ (fuel i : Nat) (d : Entries GoValue), i ≤ values.length →
      (values.length - i) % 2 = 0 → values.length - i ≤ 2 * fuel →
      dictLoop values fuel i d = Outcome.ok (storePairs (values.drop i) d) := by
  intro fuel
  induction fuel with
  | zero =>
    intro i d hi _ hf
    have hlen : i = values.length := by omega
    subst hlen
    simp [dictLoop, storePairs]
  | succ fuel ih =>
    intro i d hi hmod hf
    by_cases hlt : i < values.length
    · have hlt1 : i + 1 < values.length := by omega
      have hdrop : values.drop i =
          values.get ⟨i, hlt⟩ :: values.get ⟨i + 1, hlt1⟩ :: values.drop (i + 2) := by
        rw [List.drop_eq_getElem_cons hlt, List.drop_eq_getElem_cons hlt1]
        rfl
      have hrec := fun d' => ih (i + 2) d' (by omega) (by omega) (by omega)
      rw [hdrop, storePairs_cons_cons]
      simp only [dictLoop, hlt, if_true, indexAny_of_lt values i hlt, Outcome.ok_bind]
      cases hkey : values.get ⟨i, hlt⟩ with
      | str defined s =>
        cases defined
        · simp only [indexAny_of_lt values (i + 1) hlt1, Outcome.ok_bind]
          exact hrec _
        · exact hrec _
      | _ => exact hrec _
    · have hlen : i = values.length := by omega
      subst hlen
      simp [dictLoop, storePairs]

theorem lookup_storePairs (k : GoString) :
    ∀ (l : List GoValue) (d : Entries GoValue),
      (storePairs l d).lookup k =
        match lastBinding k l with
        | some v => some v
        | none => d.lookup k
  | [], _ => rfl
  | [_], _ => rfl
  | a :: b :: rest, d => by
    rw [storePairs_cons_cons]
    have hlb : lastBinding k (a :: b :: rest) =
        (match lastBinding k rest with
         | some v => some v
         | none => if isStringKey k a then some b else none) := rfl
    rw [hlb]
    cases a with
    | str defined s =>
      cases defined
      · simp only [lookup_storePairs k rest]
        cases lastBinding k rest with
        | some v => rfl
        | none =>
          by_cases hk : s = k
          · subst hk
            simp [isStringKey, AList.lookup_insert]
          · have hk2 : k ≠ s := fun h => hk h.symm
            simp [isStringKey, hk, AList.lookup_insert_ne hk2]
      · simp only [lookup_storePairs k rest]
        cases lastBinding k rest <;> simp [isStringKey]
    | _ =>
      simp only [lookup_storePairs k rest]
      cases lastBinding k rest <;> simp [isStringKey]

theorem lastBinding_eq_none_iff (k : GoString) :
    ∀ (l : List GoValue), l.length % 2 = 0 →
      (lastBinding k l = none ↔ ∀ j : Nat, l[2 * j]? ≠ some (GoValue.str false k))
  | [], _ => by simp [lastBinding]
  | [_], h => by simp at h
  | a :: b :: rest, h => by
    have hrest : rest.length % 2 = 0 := by
      simp only [List.length_cons] at h
      omega
    have ih := lastBinding_eq_none_iff k rest hrest
    have hlb : lastBinding k (a :: b :: rest) =
        (match lastBinding k rest with
         | some v => some v
         | none => if isStringKey k a then some b else none) := rfl
    rw [hlb]
    constructor
    · intro hnone j
      cases hr : lastBinding k rest with
      | some v => rw [hr] at hnone; cases hnone
      | none =>
        rw [hr] at hnone
        cases j with
        | zero =>
          intro h0
          have ha : a = GoValue.str false k := by simpa using h0
          have : isStringKey k a = true := (isStringKey_iff k a).mpr ha
          simp [this] at hnone
        | succ j =>
          have : 2 * (j + 1) = 2 * j + 1 + 1 := by ring
          rw [this, List.getElem?_cons_succ, List.getElem?_cons_succ]
          exact (ih.mp hr) j
    · intro hall
      have hr : lastBinding k rest = none := by
        apply ih.mpr
        intro j
        have := hall (j + 1)
        have e : 2 * (j + 1) = 2 * j + 1 + 1 := by ring
        rw [e, List.getElem?_cons_succ, List.getElem?_cons_succ] at this
        exact this
      have ha : ¬ isStringKey k a = true := by
        intro hkey
        have := hall 0
        simp [(isStringKey_iff k a).mp hkey] at this
      simp [hr, ha]

theorem lastBinding_of_last_position (k : GoString) :
    ∀ (l : List GoValue), l.length % 2 = 0 → ∀ (j : Nat) (v : GoValue),
      l[2 * j]? = some (GoValue.str false k) → l[2 * j + 1]? = some v →
      (∀ j' : Nat, j < j' → l[2 * j']? ≠ some (GoValue.str false k)) →
      lastBinding k l = some v
  | [], _, j, v, h0, _, _ => by simp at h0
  | [_], h, _, _, _, _, _ => by simp at h
  | a :: b :: rest, h, j, v, h0, h1, hlater => by
    have hrest : rest.length % 2 = 0 := by
      simp only [List.length_cons] at h
      omega
    have hlb : lastBinding k (a :: b :: rest) =
        (match lastBinding k rest with
         | some v => some v
         | none => if isStringKey k a then some b else none) := rfl
    rw [hlb]
    cases j with
    | zero =>
      have ha : a = GoValue.str false k := by simpa using h0
      have hb : b = v := by simpa using h1
      have hr : lastBinding k rest = none := by
        apply (lastBinding_eq_none_iff k rest hrest).mpr
        intro j'
        have := hlater (j' + 1) (by omega)
        have e : 2 * (j' + 1) = 2 * j' + 1 + 1 := by ring
        rw [e, List.getElem?_cons_succ, List.getElem?_cons_succ] at this
        exact this
      have hkey : isStringKey k a = true := (isStringKey_iff k a).mpr ha
      simp [hr, hkey, hb]
    | succ j =>
      have e0 : 2 * (j + 1) = 2 * j + 1 + 1 := by ring
      have e1 : 2 * (j + 1) + 1 = 2 * j + 1 + 1 + 1 := by ring
      rw [e0, List.getElem?_cons_succ, List.getElem?_cons_succ] at h0
      rw [e1, List.getElem?_cons_succ, List.getElem?_cons_succ] at h1
      have hr := lastBinding_of_last_position k rest hrest j v h0 h1 (by
        intro j' hj'
        have := hlater (j' + 1) (by omega)
        have e : 2 * (j' + 1) = 2 * j' + 1 + 1 := by ring
        rw [e, List.getElem?_cons_succ, List.getElem?_cons_succ] at this
        exact this)
      simp [hr]

theorem dict_of_even (values : List GoValue) (h : values.length % 2 = 0) :
    FuncMap.dict values = Outcome.ok (GoMap.made (storePairs values ∅)) := by
  have hloop := dictLoop_eq values values.length 0 ∅ (by omega) (by omega) (by omega)
  simp only [List.drop_zero] at hloop
  simp [FuncMap.dict, h, hloop]

/-- C14: for every argument list of dict: with an odd number of arguments the
result is the nil map, which has no entries; with an even number the result
has an entry for k exactly when some even position 2j holds the string k, and
that entry is the argument at position 2j+1 for the largest such j; pairs
whose key is not a string store nothing. -/
theorem C14_dict_pairs (values : List GoValue) :
    (values.length % 2 = 1 →
      FuncMap.dict values = Outcome.ok GoMap.nil ∧
      ∀ k, (GoMap.nil : GoMap GoValue).lookup k = none) ∧
    (values.length % 2 = 0 →
      ∃ d, FuncMap.dict values = Outcome.ok d ∧ ∀ k : GoString,
        ((d.lookup k).isSome ↔ ∃ j : Nat, values[2 * j]? = some (GoValue.str false k)) ∧
        (∀ j : Nat, values[2 * j]? = some (GoValue.str false k) →
          (∀ j' : Nat, j < j' → values[2 * j']? ≠ some (GoValue.str false k)) →
          ∃ v, values[2 * j + 1]? = some v ∧ d.lookup k = some v)) := by
  constructor
  · intro hodd
    have hne : values.length % 2 ≠ 0 := by omega
    exact ⟨by simp [FuncMap.dict, hne], fun _ => rfl⟩
  · intro heven
    refine ⟨_, dict_of_even values heven, ?_⟩
    intro k
    have hlook : (GoMap.made (storePairs values ∅)).lookup k = lastBinding k values := by
      show (storePairs values ∅).lookup k = _
      rw [lookup_storePairs]
      cases lastBinding k values <;> rfl
    rw [hlook]
    constructor
    · constructor
      · intro hsome
        by_contra hno
        push_neg at hno
        have := (lastBinding_eq_none_iff k values heven).mpr hno
        rw [this] at hsome
        cases hsome
      · rintro ⟨j, hj⟩
        cases hlb : lastBinding k values with
        | some v => rfl
        | none =>
          exact absurd hj ((lastBinding_eq_none_iff k values heven).mp hlb j)
    · intro j hj hlater
      have hlt : 2 * j < values.length := by
        by_contra hge
        rw [List.getElem?_eq_none (by omega)] at hj
        cases hj
      have hlt1 : 2 * j + 1 < values.length := by omega
      refine ⟨values[2 * j + 1], List.getElem?_eq_getElem hlt1, ?_⟩
      exact lastBinding_of_last_position k values heven j _ hj
        (List.getElem?_eq_getElem hlt1) hlater

theorem C14_witness :
    ∃ d, FuncMap.dict [GoValue.str false (lit "a"), GoValue.int false IntKind.int 1,
        GoValue.bool false true, GoValue.int false IntKind.int 2,
        GoValue.str false (lit "a"), GoValue.int false IntKind.int 3] = Outcome.ok d ∧
      ∀ k : GoString,
        ((d.lookup k).isSome ↔ ∃ j : Nat,
          [GoValue.str false (lit "a"), GoValue.int false IntKind.int 1,
            GoValue.bool false true, GoValue.int false IntKind.int 2,
            GoValue.str false (lit "a"), GoValue.int false IntKind.int 3][2 * j]? =
              some (GoValue.str false k)) ∧
        (∀ j : Nat,
          [GoValue.str false (lit "a"), GoValue.int false IntKind.int 1,
            GoValue.bool false true, GoValue.int false IntKind.int 2,
            GoValue.str false (lit "a"), GoValue.int false IntKind.int 3][2 * j]? =
              some (GoValue.str false k) →
          (∀ j' : Nat, j < j' →
            [GoValue.str false (lit "a"), GoValue.int false IntKind.int 1,
              GoValue.bool false true, GoValue.int false IntKind.int 2,
              GoValue.str false (lit "a"), GoValue.int false IntKind.int 3][2 * j']? ≠
                some (GoValue.str false k)) →
          ∃ v,
            [GoValue.str false (lit "a"), GoValue.int false IntKind.int 1,
              GoValue.bool false true, GoValue.int false IntKind.int 2,
              GoValue.str false (lit "a"), GoValue.int false IntKind.int 3][2 * j + 1]? =
                some v ∧ d.lookup k = some v) :=
  (C14_dict_pairs [GoValue.str false (lit "a"), GoValue.int false IntKind.int 1,
    GoValue.bool false true, GoValue.int false IntKind.int 2,
    GoValue.str false (lit "a"), GoValue.int false IntKind.int 3]).2 rfl

/-- The template function `dict` on a few inputs: a later pair overwrites an
earlier one, a pair with a non-string key is skipped, an odd argument count
gives the nil map. -/
theorem dict_examples :
    (∃ d, FuncMap.dict [GoValue.str false (lit "a"), GoValue.int false IntKind.int 1,
        GoValue.bool false true, GoValue.int false IntKind.int 2,
        GoValue.str false (lit "a"), GoValue.int false IntKind.int 3] = Outcome.ok d ∧
      d.lookup (lit "a") = some (GoValue.int false IntKind.int 3) ∧
      d.lookup (lit "b") = none) ∧
    FuncMap.dict [GoValue.str false (lit "a")] = Outcome.ok GoMap.nil :=
  ⟨⟨_, rfl, rfl, rfl⟩, rfl⟩

/-- The case of `TestMergeFuncMap`, with numbers in place of the functions:
base = {a: 1}, extra = {b: 2, a: 3}. -/
theorem MergeFuncMap_example :
    (MergeFuncMap (GoMap.made ((∅ : Entries Nat).insert (lit "a") 1))
      (GoMap.made (((∅ : Entries Nat).insert (lit "b") 2).insert (lit "a") 3))).lookup (lit "a")
        = some 3 ∧
    (MergeFuncMap (GoMap.made ((∅ : Entries Nat).insert (lit "a") 1))
      (GoMap.made (((∅ : Entries Nat).insert (lit "b") 2).insert (lit "a") 3))).lookup (lit "b")
        = some 2 ∧
    (MergeFuncMap (GoMap.made ((∅ : Entries Nat).insert (lit "a") 1))
      (GoMap.nil : GoMap Nat)).lookup (lit "a") = some 1 := by
  refine ⟨?_, ?_, ?_⟩ <;> decide

/-! ## Time formatting -/

theorem toTime_eq_none_iff (env : TimeEnv) (v : GoValue) :
    toTime env v = none ↔ NotNormalisable env v := by
  cases v with
  | time t =>
    simp only [toTime, NotNormalisable]
    cases t.IsZero <;> simp
  | str defined s =>
    cases defined
    · simp only [toTime, NotNormalisable, parseFirst]
      by_cases hs : s = []
      · simp [hs]
      · simp only [hs, if_false, false_or]
        cases env.Parse RFC3339 s with
        | some t => simp
        | none =>
          cases env.Parse (lit "2006-01-02") s with
          | some t => simp
          | none => simp
    · simp [toTime, NotNormalisable]
  | int defined k i =>
    cases defined <;> cases k <;> simp [toTime, NotNormalisable]
  | _ => simp [toTime, NotNormalisable]

theorem fallback_eq_stringOrEmpty (v : GoValue) :
    (match v with
     | GoValue.str false s => if s ≠ [] then s else []
     | _ => []) = stringOrEmpty v := by
  cases v with
  | str defined s =>
    cases defined
    · by_cases hs : s = []
      · simp [stringOrEmpty, hs]
      · simp [stringOrEmpty, hs]
    · rfl
  | _ => rfl

theorem formatTimeValue_of_none (env : TimeEnv) (v : GoValue) (layout : GoString)
    (h : toTime env v = none) : formatTimeValue env v layout = stringOrEmpty v := by
  simp only [formatTimeValue, h]
  exact fallback_eq_stringOrEmpty v

theorem formatTimeValue_of_some (env : TimeEnv) (v : GoValue) (layout : GoString) (t : Time)
    (h : toTime env v = some t) : formatTimeValue env v layout = t.Format layout := by
  simp only [formatTimeValue, h]

/-- The cases of `TestFormatTime`, `TestFormatDate` and `TestFormatDateTime`,
in the sample environment. -/
theorem Format_examples :
    FormatTime testEnv (GoValue.time Time.zero) = lit "" ∧
    FormatTime testEnv (GoValue.str false (lit "")) = lit "" ∧
    FormatTime testEnv (GoValue.int false IntKind.int64 0) = lit "" ∧
    FormatTime testEnv GoValue.nil = lit "" ∧
    FormatTime testEnv (GoValue.str false (lit "2024-06-15T10:30:00Z")) =
      lit "Jun 15, 2024 10:30 AM" ∧
    FormatDate testEnv (GoValue.time Time.zero) = lit "" ∧
    FormatDate testEnv (GoValue.str false (lit "2024-06-15")) = lit "Jun 15, 2024" ∧
    FormatDate testEnv (GoValue.str false (lit "2024-06-15T10:30:00Z")) = lit "Jun 15, 2024" ∧
    FormatDateTime testEnv (GoValue.time
      { Year := 2024, Month := Month.June, Day := 15, Hour := 14, Minute := 30, Second := 0,
        Nanosecond := 0, Offset := 0 }) = lit "Jun 15, 2024 14:30" := by
  refine ⟨?_, ?_, ?_, ?_, ?_, ?_, ?_, ?_, ?_⟩ <;> decide

/-- C12: for every input v that cannot be normalised to an instant (the zero
time, the empty string, a string that parses under neither layout, int64 zero,
nil, a value of any other type), toTime reports failure and each of TimeAgo,
FormatTime, FormatDate and FormatDateTime returns v itself when v is a string
and the empty string otherwise (for the empty string the two agree). -/
theorem C12_not_normalisable_falls_back (env : TimeEnv) (sinceText : Time → GoString)
    (v : GoValue) (h : NotNormalisable env v) :
    toTime env v = none ∧
    TimeAgo env sinceText v = stringOrEmpty v ∧
    FormatTime env v = stringOrEmpty v ∧
    FormatDate env v = stringOrEmpty v ∧
    FormatDateTime env v = stringOrEmpty v ∧
    (∀ s, v = GoValue.str false s → stringOrEmpty v = s) ∧
    ((∀ s, v ≠ GoValue.str false s) → stringOrEmpty v = []) := by
  have hnone : toTime env v = none := (toTime_eq_none_iff env v).mpr h
  refine ⟨hnone, ?_, formatTimeValue_of_none env v _ hnone,
    formatTimeValue_of_none env v _ hnone, formatTimeValue_of_none env v _ hnone, ?_, ?_⟩
  · simp only [TimeAgo, hnone]
    exact fallback_eq_stringOrEmpty v
  · rintro s rfl
    rfl
  · intro hne
    cases v with
    | str defined s =>
      cases defined
      · exact absurd rfl (hne s)
      · rfl
    | _ => rfl

theorem C12_witness :
    NotNormalisable testEnv (GoValue.str false (lit "not a date")) ∧
    (toTime testEnv (GoValue.str false (lit "not a date")) = none ∧
    TimeAgo testEnv (fun _ => lit "just now") (GoValue.str false (lit "not a date")) =
      stringOrEmpty (GoValue.str false (lit "not a date")) ∧
    FormatTime testEnv (GoValue.str false (lit "not a date")) =
      stringOrEmpty (GoValue.str false (lit "not a date")) ∧
    FormatDate testEnv (GoValue.str false (lit "not a date")) =
      stringOrEmpty (GoValue.str false (lit "not a date")) ∧
    FormatDateTime testEnv (GoValue.str false (lit "not a date")) =
      stringOrEmpty (GoValue.str false (lit "not a date")) ∧
    (∀ s, GoValue.str false (lit "not a date") = GoValue.str false s →
      stringOrEmpty (GoValue.str false (lit "not a date")) = s) ∧
    ((∀ s, GoValue.str false (lit "not a date") ≠ GoValue.str false s) →
      stringOrEmpty (GoValue.str false (lit "not a date")) = [])) :=
  ⟨Or.inr ⟨by decide, by decide⟩,
    C12_not_normalisable_falls_back testEnv (fun _ => lit "just now")
      (GoValue.str false (lit "not a date")) (Or.inr ⟨by decide, by decide⟩)⟩

theorem formatNat_length_le (n k : Nat) (hk : 1 ≤ k) (h : n < 10 ^ k) :
    (formatNat n).length ≤ k := by
  rw [formatNat_eq, decimalText]
  by_cases h0 : n = 0
  · simp [h0]; omega
  · rw [if_neg h0, List.length_map, List.length_reverse]
    by_contra hlen
    have hk1 : k + 1 ≤ (Nat.digits 10 n).length := by omega
    have h1 : 10 ^ (k + 1) ≤ 10 ^ (Nat.digits 10 n).length :=
      Nat.pow_le_pow_right (by norm_num) hk1
    have h2 := Nat.base_pow_length_digits_le 10 n (by norm_num) h0
    have h3 : 10 ^ (k + 1) = 10 * 10 ^ k := by rw [pow_succ]; ring
    omega

theorem appendInt_length (x : Int) (width : Nat) (h0 : 0 ≤ x)
    (h : (formatNat x.natAbs).length ≤ width) : (appendInt x width).length = width := by
  have hneg : ¬ x < 0 := by omega
  simp only [appendInt, hneg, if_false, List.nil_append, List.length_append,
    List.length_replicate]
  omega

theorem appendInt_day_padded (d : Nat) (h1 : 1 ≤ d) (h9 : d ≤ 9) :
    appendInt (d : Int) 2 = [digitByte 0, digitByte d] := by
  interval_cases d <;> decide

theorem Format_date_layout (t : Time) :
    t.Format (lit "Jan 02, 2006") =
      t.Month.String.take 3 ++ (lit " " ++ (appendInt t.Day 2 ++ (lit ", " ++ appendInt t.Year 4))) := by
  have h : lit "Jan 02, 2006" = [74, 97, 110, 32, 48, 50, 44, 32, 50, 48, 48, 54] := by decide
  rw [h]
  simp only [Time.Format, List.append_nil]
  rfl

theorem Format_datetime_layout (t : Time) :
    t.Format (lit "Jan 02, 2006 15:04") =
      t.Month.String.take 3 ++ (lit " " ++ (appendInt t.Day 2 ++ (lit ", " ++
        (appendInt t.Year 4 ++ (lit " " ++ (appendInt t.Hour 2 ++ (lit ":" ++
          appendInt t.Minute 2))))))) := by
  have h : lit "Jan 02, 2006 15:04" =
      [74, 97, 110, 32, 48, 50, 44, 32, 50, 48, 48, 54, 32, 49, 53, 58, 48, 52] := by decide
  rw [h]
  simp only [Time.Format, List.append_nil]
  rfl

theorem Month_abbreviation_length (m : Month) : (m.String.take 3).length = 3 := by
  cases m <;> decide

/-- C16 (as stated, refuted): FormatDate prints the day of June 5, 2024 with a
leading zero, "Jun 05, 2024", not as the single digit of "Jun 5, 2024". -/
theorem C16_counterexample_day_is_zero_padded :
    FormatDate testEnv (GoValue.time
      { Year := 2024, Month := Month.June, Day := 5, Hour := 0, Minute := 0, Second := 0,
        Nanosecond := 0, Offset := 0 }) = lit "Jun 05, 2024" ∧
    FormatDate testEnv (GoValue.time
      { Year := 2024, Month := Month.June, Day := 5, Hour := 0, Minute := 0, Second := 0,
        Nanosecond := 0, Offset := 0 }) ≠ lit "Jun 5, 2024" := by
  constructor <;> decide

/-- C16 (amended): FormatDate renders a normalised instant with the fixed
pattern "Mon DD, YYYY": the three-letter month name, the day of month
zero-padded to two digits, a comma, and the year zero-padded to four digits; so
for a day of month 1..9 the day is printed as "0" and the digit, just as in
the date part of FormatDateTime, whose pattern is "Mon DD, YYYY HH:mm".  With a
two-digit day, FormatDate("2024-06-15") = "Jun 15, 2024". -/
theorem C16_format_date_pads_day (env : TimeEnv) (v : GoValue) (t : Time)
    (h : toTime env v = some t) :
    FormatDate env v =
      t.Month.String.take 3 ++ (lit " " ++ (appendInt t.Day 2 ++ (lit ", " ++ appendInt t.Year 4))) ∧
    (t.Month.String.take 3).length = 3 ∧
    (1 ≤ t.Day → t.Day ≤ 9 → appendInt t.Day 2 = [digitByte 0, digitByte t.Day]) ∧
    (t.Day ≤ 99 → (appendInt t.Day 2).length = 2) ∧
    (0 ≤ t.Year → t.Year ≤ 9999 → (appendInt t.Year 4).length = 4) ∧
    FormatDateTime env v =
      t.Month.String.take 3 ++ (lit " " ++ (appendInt t.Day 2 ++ (lit ", " ++
        (appendInt t.Year 4 ++ (lit " " ++ (appendInt t.Hour 2 ++ (lit ":" ++
          appendInt t.Minute 2))))))) ∧
    (env.Parse RFC3339 (lit "2024-06-15") = none →
      env.Parse (lit "2006-01-02") (lit "2024-06-15") =
        some { Year := 2024, Month := Month.June, Day := 15, Hour := 0, Minute := 0,
               Second := 0, Nanosecond := 0, Offset := 0 } →
      FormatDate env (GoValue.str false (lit "2024-06-15")) = lit "Jun 15, 2024") := by
  refine ⟨?_, Month_abbreviation_length _, appendInt_day_padded t.Day, ?_, ?_, ?_, ?_⟩
  · rw [FormatDate, formatTimeValue_of_some env v _ t h, Format_date_layout]
  · intro h99
    exact appendInt_length _ 2 (by omega)
      (formatNat_length_le _ 2 (by norm_num) (by
        have : ((t.Day : Int)).natAbs = t.Day := Int.natAbs_ofNat _
        rw [this]
        norm_num
        omega))
  · intro hy0 hy
    exact appendInt_length _ 4 hy0
      (formatNat_length_le _ 4 (by norm_num) (by
        norm_num
        omega))
  · rw [FormatDateTime, formatTimeValue_of_some env v _ t h, Format_datetime_layout]
  · intro hr hd
    have hne : ¬ (lit "2024-06-15" = []) := by decide
    have ht : toTime env (GoValue.str false (lit "2024-06-15")) =
        some { Year := 2024, Month := Month.June, Day := 15, Hour := 0, Minute := 0,
               Second := 0, Nanosecond := 0, Offset := 0 } := by
      simp only [toTime, hne, if_false, parseFirst, hr, hd]
    rw [FormatDate, formatTimeValue_of_some env _ _ _ ht]
    decide

theorem C16_witness :
    toTime testEnv (GoValue.str false (lit "2024-06-15")) =
      some { Year := 2024, Month := Month.June, Day := 15, Hour := 0, Minute := 0,
             Second := 0, Nanosecond := 0, Offset := 0 } ∧
    FormatDate testEnv (GoValue.str false (lit "2024-06-15")) = lit "Jun 15, 2024" :=
  ⟨by decide,
    (C16_format_date_pads_day testEnv (GoValue.str false (lit "2024-06-15"))
      { Year := 2024, Month := Month.June, Day := 15, Hour := 0, Minute := 0,
        Second := 0, Nanosecond := 0, Offset := 0 } (by decide)).2.2.2.2.2.2
      (by decide) (by decide)⟩

/-! ## The relative-time text of TimeAgo -/

/-- The cases of `TestTimeAgo`, and one input in each further bucket. -/
theorem TimeAgo_examples :
    TimeAgoAt testEnv (fun _ => 0) (GoValue.str false (lit "")) = lit "" ∧
    TimeAgoAt testEnv (fun _ => 0) GoValue.nil = lit "" ∧
    elapsedText 30000000000 = lit "just now" ∧
    elapsedText (-30000000000) = lit "just now" ∧
    elapsedText (5 * Minute) = lit "5 minutes ago" ∧
    elapsedText (2 * Minute - 1) = lit "1 minute ago" ∧
    elapsedText (3 * Hour) = lit "3 hours ago" ∧
    elapsedText (24 * Hour) = lit "yesterday" ∧
    elapsedText (3 * 24 * Hour) = lit "3 days ago" ∧
    elapsedText (14 * 24 * Hour - 1) = lit "1 week ago" ∧
    elapsedText (45 * 24 * Hour) = lit "1 month ago" ∧
    elapsedText (150 * 24 * Hour - 1) = lit "4 months ago" ∧
    elapsedText (400 * 24 * Hour) = lit "1 year ago" := by
  refine ⟨?_, ?_, ?_, ?_, ?_, ?_, ?_, ?_, ?_, ?_, ?_, ?_, ?_⟩ <;> decide

/-- C11 (the code at the failing input): with d = 180 days - 1 ns elapsed, in
the bucket 30 days <= d < 365 days, the exact floor of d / 30 days is 5, but
the float64 sum in `Duration.Hours` rounds up to 4320.0 and TimeAgo returns
"6 months ago".  In the same way d = 2 * 365 days - 1 ns, whose floor of
d / 365 days is 1, gives "2 years ago". -/
theorem C11_count_rounded_up_below_boundary :
    (30 * 24 * Hour ≤ 15551999999999999 ∧ 15551999999999999 < 365 * 24 * Hour) ∧
    (15551999999999999 : Int) = 180 * 24 * Hour - 1 ∧
    (15551999999999999 : Int) / (30 * 24 * Hour) = 5 ∧
    Duration.Hours 15551999999999999 = F64.ofNat 4320 ∧
    elapsedText 15551999999999999 = lit "6 months ago" ∧
    TimeAgoAt testEnv (fun _ => 15551999999999999) (GoValue.str false (lit "2024-06-15")) =
      lit "6 months ago" ∧
    365 * 24 * Hour ≤ 63071999999999999 ∧
    (63071999999999999 : Int) = 2 * 365 * 24 * Hour - 1 ∧
    (63071999999999999 : Int) / (365 * 24 * Hour) = 1 ∧
    elapsedText 63071999999999999 = lit "2 years ago" := by
  refine ⟨⟨?_, ?_⟩, ?_, ?_, ?_, ?_, ?_, ?_, ?_, ?_, ?_⟩ <;> decide

end Ds
